import Mathlib

set_option linter.unusedVariables false
set_option linter.unnecessarySeqFocus false

/-!
Verification of the configuration resolution engine (src/config/parse.c).

The development shallowly embeds the parsing pipeline: the static rule table
(`ParseRuleOption`, optional-data records), the alias lookup (`cfgParseOption`),
the argv / environment / configuration-file merge phases, size-value conversion
(`convertToByte`), configuration-file part concatenation (`cfgFileLoadPart`),
group index-map resolution, and per-option validation / materialisation.
Machine integers are modelled as `Nat`/`Int` with explicit `% 2 ^ 64` where the
C code can overflow.  Fallible code returns `Except ConfigError` or `Option`.
-/

namespace PgBackRest

/-- Option value types (ConfigOptionType in the source). -/
inductive ConfigOptionType where
  | boolean
  | hash
  | vlist
  | integer
  | path
  | size
  | strng
  | time
  deriving DecidableEq

/-- Sections an option may appear in (ConfigSection in parse.c). -/
inductive ConfigSection where
  | commandLine
  | global
  | stanza
  deriving DecidableEq

/-- Provenance of a parsed value (ConfigSource).  The zero value of the C
bitfield corresponds to `default`.  Note that the environment importer records
`config`, not a separate env tag. -/
inductive ConfigSource where
  | default
  | param
  | config
  deriving DecidableEq

/-- Typed value container stored in the final configuration (a Variant in the
source). -/
inductive Value where
  | boolean (b : Bool)
  | int64 (i : Int)
  | strng (s : String)
  | strList (l : List String)
  | kv (l : List (String × String))
  deriving DecidableEq

/-- Errors raised by the parse pipeline.  Constructors carry the structured
data that the corresponding THROW_FMT sites format into messages; rendering of
user-visible names is not modelled. -/
inductive ConfigError where
  | secureOnCommandLine (optionId keyIdx : Nat)
  | negatedMultipleTimes (optionId keyIdx : Nat)
  | resetMultipleTimes (optionId keyIdx : Nat)
  | negatedAndReset (optionId keyIdx : Nat)
  | setAndNegated (optionId keyIdx : Nat)
  | setAndReset (optionId keyIdx : Nat)
  | setMultipleTimes (optionId keyIdx : Nat)
  | envVariableMustHaveValue (key : String)
  | envBooleanInvalid (key : String)
  | duplicateOption (key otherKey sectionName : String)
  | sectionKeyMustHaveValue (sectionName key : String)
  | configBooleanInvalid (key : String)
  | notValidForCommand (optionId : Nat)
  | dependUnresolved (optionId keyIdx dependOptionId : Nat)
  | dependValueInvalid (optionId keyIdx dependOptionId : Nat)
  | keyValueInvalid (pair : String) (optionId keyIdx : Nat)
  | valueInvalid (value : String) (optionId keyIdx : Nat)
  | outOfRange (value : String) (optionId keyIdx : Nat)
  | valueTooSmall (value : String) (optionId keyIdx : Nat)
  | mustBeginWithSlash (value : String) (optionId keyIdx : Nat)
  | cannotContainSlashSlash (value : String) (optionId keyIdx : Nat)
  | notAllowed (value : String) (optionId keyIdx : Nat)
  | optionRequired (commandId optionId keyIdx : Nat) (hint : String)
  | formatError (value : String)
  deriving DecidableEq

/-- ParseOptionValue: one option slot parsed from the command line, the
environment, or a configuration file. -/
structure ParseOptionValue where
  found : Bool := false
  negate : Bool := false
  reset : Bool := false
  source : ConfigSource := .default
  valueList : List String := []
  deriving DecidableEq

/-- CfgParseOptionResult: decoded alias-table entry. -/
structure CfgParseOptionResult where
  found : Bool := false
  id : Nat := 0
  keyIdx : Nat := 0
  negate : Bool := false
  reset : Bool := false
  deprecated : Bool := false
  deriving DecidableEq

/-- Tags for records in the packed optional-data stream
(ParseRuleOptionDataType).  The `end` tag is represented by the end of the
record list, matching the NULL terminator of the C array. -/
inductive ParseRuleOptionDataType where
  | allowList
  | allowRange
  | command
  | default
  | depend
  | required
  deriving DecidableEq

/-- One record of the packed optional-data stream: the header's type and data
fields plus the payload.  String payloads are kept in `list`; the four packed
int64 halves of an AllowRange record are modelled by the recombined integers in
`ints` (the source recombines them with PARSE_RULE_DATA_INT64). -/
structure DataRecord where
  type : ParseRuleOptionDataType
  data : Nat := 0
  list : List String := []
  ints : List Int := []
  deriving DecidableEq

/-- ParseRuleOption: how one option is parsed.  `sec` is the `section` field of
the C struct (`section` is a reserved word in Lean).  `commandRoleValid` models
the per-role command bitmasks as a predicate: role, then command. -/
structure ParseRuleOption where
  name : String := ""
  type : ConfigOptionType := .strng
  required : Bool := false
  sec : ConfigSection := .global
  secure : Bool := false
  multi : Bool := false
  group : Bool := false
  groupId : Nat := 0
  commandRoleValid : Nat → Nat → Bool := fun _ _ => false
  data : List DataRecord := []

/-- The static rule table: per-option rules, the long-option alias table
(optionList in parse.auto.c, already decoded to CfgParseOptionResult), and
command names.  The concrete table is generated code (parse.auto.c, not part of
the sources under verification), so developments are parameterised by it. -/
structure ParseRules where
  option : Nat → ParseRuleOption
  aliasList : List (String × CfgParseOptionResult) := []
  commandName : Nat → String := fun _ => ""

/-- CFG_OPTION_KEY_MAX. -/
def CFG_OPTION_KEY_MAX : Nat := 256

/-- cfgParseOption: find an option by name in the alias table (first match). -/
def cfgParseOption (rules : ParseRules) (optionName : String) : CfgParseOptionResult :=
  match rules.aliasList.find? (fun e => e.1 = optionName) with
  | some e => e.2
  | none => {}

/-- cfgParseOptionValid: is the option valid for the command and role. -/
def cfgParseOptionValid (rules : ParseRules) (commandId commandRoleId optionId : Nat) : Bool :=
  (rules.option optionId).commandRoleValid commandRoleId commandId

/-- Extracted option data (ParseRuleOptionData). -/
structure ParseRuleOptionData where
  found : Bool := false
  data : Nat := 0
  listSize : Nat := 0
  list : List String := []
  ints : List Int := []
  deriving DecidableEq

/-- The record stored into the result by parseRuleOptionDataFind. -/
def dataRecordResult (r : DataRecord) : ParseRuleOptionData :=
  { found := true, data := r.data, listSize := r.list.length, list := r.list, ints := r.ints }

/-- Loop body of parseRuleOptionDataFind.  `commandCurrent = none` models the
UINT_MAX sentinel (no Command record seen yet); the end of the list is the
stream's End record. -/
def parseRuleOptionDataFindLoop (typeFind : ParseRuleOptionDataType) (commandId : Nat) :
    List DataRecord → Option Nat → ParseRuleOptionData → ParseRuleOptionData
  | [], _, result => result
  | r :: rest, commandCurrent, result =>
    if r.type = .command then
      if commandCurrent = some commandId then result
      else parseRuleOptionDataFindLoop typeFind commandId rest (some r.data) result
    else if r.type = typeFind ∧ (commandCurrent = none ∨ commandCurrent = some commandId) then
      if commandCurrent = some commandId then dataRecordResult r
      else parseRuleOptionDataFindLoop typeFind commandId rest commandCurrent (dataRecordResult r)
    else parseRuleOptionDataFindLoop typeFind commandId rest commandCurrent result

/-- parseRuleOptionDataFind: find optional data for a command and option. -/
def parseRuleOptionDataFind (rules : ParseRules) (typeFind : ParseRuleOptionDataType)
    (commandId optionId : Nat) : ParseRuleOptionData :=
  parseRuleOptionDataFindLoop typeFind commandId (rules.option optionId).data none {}

/-- cfgParseOptionDefault: the default for the command and option, if any.  The
generated payload of a Default record always holds exactly one string; an
empty payload is read as "". -/
def cfgParseOptionDefault (rules : ParseRules) (commandId optionId : Nat) : Option String :=
  let data := parseRuleOptionDataFind rules .default commandId optionId
  if data.found then some (data.list.getD 0 "") else none

/-- cfgParseOptionRequired: Required record overrides the static flag. -/
def cfgParseOptionRequired (rules : ParseRules) (commandId optionId : Nat) : Bool :=
  let data := parseRuleOptionDataFind rules .required commandId optionId
  if data.found then data.data ≠ 0 else (rules.option optionId).required

/-- sizeQualifierToMultiplier: multiplier for a size qualifier character.
`none` models the AssertError thrown for any other character. -/
def sizeQualifierToMultiplier : Char → Option Nat
  | 'b' => some 1
  | 'k' => some 1024
  | 'm' => some (1024 * 1024)
  | 'g' => some (1024 * 1024 * 1024)
  | 't' => some (1024 * 1024 * 1024 * 1024)
  | 'p' => some (1024 * 1024 * 1024 * 1024 * 1024)
  | _ => none

/-- Numeric value of a digit string. -/
def digitsVal (l : List Char) : Nat :=
  l.foldl (fun acc c => acc * 10 + (c.toNat - 48)) 0

/-- cvtZToUInt64 (common/type/convert.c collaborator): parse an unsigned
decimal; errors (none) on an empty string, a non-digit character, or a value
that does not fit in a uint64.  On the digit strings produced inside
convertToByte this matches strtoull's endptr/ERANGE checks. -/
def cvtZToUInt64 (l : List Char) : Option Nat :=
  if !l.isEmpty && l.all Char.isDigit then
    let n := digitsVal l
    if n < 2 ^ 64 then some n else none
  else none

/-- cvtZToInt64 (collaborator): parse a signed 64-bit decimal, errors on
malformed input or out-of-range values. -/
def cvtZToInt64 (s : String) : Option Int :=
  match s.data with
  | '-' :: rest =>
    if !rest.isEmpty && rest.all Char.isDigit then
      let n := digitsVal rest
      if n ≤ 2 ^ 63 then some (-(n : Int)) else none
    else none
  | l =>
    if !l.isEmpty && l.all Char.isDigit then
      let n := digitsVal l
      if n < 2 ^ 63 then some (n : Int) else none
    else none

/-- Fuelled matcher for the Kleene star `(t₁|t₂|…)*` over a token list: true
when the string is a concatenation of tokens.  Empty tokens never match (no
token of the size regex is empty).  Each matched token consumes at least one
character, so fuel of at least the string length never runs out. -/
def tokenStarFuel (toks : List (List Char)) : Nat → List Char → Bool
  | _, [] => true
  | 0, _ :: _ => false
  | fuel + 1, c :: rest =>
    toks.any fun t =>
      match t with
      | [] => false
      | t0 :: ts => t0 = c && ts.isPrefixOf rest && tokenStarFuel toks fuel (rest.drop ts.length)

/-- Matcher for the Kleene star over a token list. -/
def tokenStar (toks : List (List Char)) (l : List Char) : Bool :=
  tokenStarFuel toks l.length l

/-- The alternatives of the size regex qualifier group, in source order. -/
def sizeQualTokens : List (List Char) :=
  [['k', 'b'], ['k'], ['m', 'b'], ['m'], ['g', 'b'], ['g'], ['t', 'b'], ['t'],
   ['p', 'b'], ['p'], ['b']]

/-- Match against `^[0-9]+(kb|k|mb|m|gb|g|tb|t|pb|p|b)*$` (the regex used by
convertToByte).  Every qualifier token starts with a letter, so the `[0-9]+`
group must take the maximal digit run; the remainder must then be a
concatenation of qualifier tokens.  `sizeRegexMatch_iff` below proves this
encoding equivalent to the existence of a split. -/
def sizeRegexMatch (l : List Char) : Bool :=
  let ds := l.takeWhile Char.isDigit
  !ds.isEmpty && tokenStar sizeQualTokens (l.drop ds.length)

/-- The position of the qualifier character (`chrPos` in convertToByte): when
the last character is `b`, the last position if the previous character is a
digit, else the next-to-last position; when the last character is any other
non-digit, the last position; `none` (`-1`) when the value ends in a digit. -/
def sizeChrPos (valueLower : List Char) : Option Nat :=
  if valueLower.getD (valueLower.length - 1) ' ' = 'b' then
    if valueLower.getD (valueLower.length - 2) ' ' ≤ '9' then some (valueLower.length - 1)
    else some (valueLower.length - 2)
  else if '9' < valueLower.getD (valueLower.length - 1) ' ' then some (valueLower.length - 1)
  else none

/-- Body of convertToByte after lowercasing.  `none` models the FormatError on
regex mismatch and the errors raised by cvtZToUInt64; the final multiplication
is the C uint64 multiplication and wraps modulo 2^64. -/
def convertToByteLower (valueLower : List Char) : Option Nat :=
  if sizeRegexMatch valueLower then
    match sizeChrPos valueLower with
    | none => (cvtZToUInt64 valueLower).map (fun n => n * 1 % 2 ^ 64)
    | some p =>
      match sizeQualifierToMultiplier (valueLower.getD p ' ') with
      | none => none
      | some multiplier => (cvtZToUInt64 (valueLower.take p)).map (fun n => n * multiplier % 2 ^ 64)
  else none

/-- convertToByte: convert a size value string to bytes (lowercase, then the
regex check and conversion). -/
def convertToByte (value : String) : Option Nat :=
  convertToByteLower (value.data.map Char.toLower)

/-- cfgFileLoadPart: append one configuration part to the accumulated config
string.  The INI well-formedness validation of the part is performed by the
external INI collaborator and is not modelled.  Note the branch structure of
the source: when the accumulator is null it is created empty and the part is
appended without a separator; otherwise (`else`) an LF is appended first, and
this includes the case of an existing empty accumulator. -/
def cfgFileLoadPart (config : Option String) (configPart : Option String) : Option String :=
  match configPart with
  | none => config
  | some part =>
    if part.length > 0 then
      match config with
      | none => some ("" ++ part)
      | some acc => some (acc ++ "\n" ++ part)
    else config

/-! ### Parsed-option store

The C code keeps a `ParseOption parseOptionList[CFG_OPTION_TOTAL]` of sparse
per-key arrays, grown on demand and zero-initialised
(`parseOptionIdxValue`).  The store is modelled as an association list from
`(option_id, key_index)` to `ParseOptionValue`; a missing entry is the
zero-initialised slot. -/

/-- The parsed-option store: (option id, key index) to slot. -/
def Store := List ((Nat × Nat) × ParseOptionValue)

instance : DecidableEq Store := by unfold Store; infer_instance

/-- The empty store (all slots zero-initialised). -/
def emptyStore : Store := []

/-- Read a slot; absent entries are the zero-initialised ParseOptionValue. -/
def storeGet (s : Store) (key : Nat × Nat) : ParseOptionValue :=
  match s.find? (fun e => e.1 = key) with
  | some e => e.2
  | none => {}

/-- Write a slot. -/
def storeSet (s : Store) (key : Nat × Nat) (v : ParseOptionValue) : Store :=
  match s with
  | [] => [(key, v)]
  | e :: rest => if e.1 = key then (key, v) :: rest else e :: storeSet rest key v

/-! ### Phase 1: command-line options -/

/-- One matched long option from the getopt loop: the decoded alias-table
entry, whether the getopt table entry takes a required argument (true exactly
for the value-taking form of non-boolean options), and the argument text. -/
structure ArgvOccurrence where
  opt : CfgParseOptionResult
  hasArg : Bool := false
  arg : String := ""

/-- Body of the `default:` case of the getopt loop in configParse: apply one
matched option occurrence to the store. -/
def configParseArgvOption (rules : ParseRules) (occ : ArgvOccurrence) (store : Store) :
    Except ConfigError Store :=
  let option := occ.opt
  if (rules.option option.id).secure then
    .error (.secureOnCommandLine option.id option.keyIdx)
  else
    let optionValue := storeGet store (option.id, option.keyIdx)
    if !optionValue.found then
      .ok (storeSet store (option.id, option.keyIdx)
        { found := true, negate := option.negate, reset := option.reset, source := .param,
          valueList := if occ.hasArg then [occ.arg] else [] })
    else if optionValue.negate && option.negate then
      .error (.negatedMultipleTimes option.id option.keyIdx)
    else if optionValue.reset && option.reset then
      .error (.resetMultipleTimes option.id option.keyIdx)
    else if (optionValue.reset && option.negate) || (optionValue.negate && option.reset) then
      .error (.negatedAndReset option.id option.keyIdx)
    else if optionValue.negate ≠ option.negate then
      .error (.setAndNegated option.id option.keyIdx)
    else if optionValue.reset ≠ option.reset then
      .error (.setAndReset option.id option.keyIdx)
    else if occ.hasArg && (rules.option option.id).multi then
      .ok (storeSet store (option.id, option.keyIdx)
        { optionValue with valueList := optionValue.valueList ++ [occ.arg] })
    else
      .error (.setMultipleTimes option.id option.keyIdx)

/-- Phase 1 over the matched option occurrences of the argument vector. -/
def configParseArgv (rules : ParseRules) (occs : List ArgvOccurrence) (store : Store) :
    Except ConfigError Store :=
  occs.foldlM (fun st occ => configParseArgvOption rules occ st) store

/-! ### Phase 2: environment variables -/

/-- Split a character list at the first `'='`. -/
def splitFirstEq : List Char → Option (List Char × List Char)
  | [] => none
  | c :: rest =>
    if c = '=' then some ([], rest)
    else match splitFirstEq rest with
      | some (k, v) => some (c :: k, v)
      | none => none

/-- Character transform applied to an environment key suffix: lowercase, then
`'_'` to `'-'` (strReplaceChr(strLower(...), '_', '-')). -/
def envKeyDecodeChar (c : Char) : Char :=
  let lc := c.toLower
  if lc = '_' then '-' else lc

/-- Decode an environment key suffix into an option name. -/
def envKeyDecode (l : List Char) : String :=
  String.mk (l.map envKeyDecodeChar)

/-- Split an environment entry `PGBACKREST_KEY=value` into the decoded option
name and the value.  Entries without the prefix yield `none` (they are ignored
by the loop); the `'='` is guaranteed by the environment (an ASSERT in the
source), and the prefix contains no `'='`, so the first `'='` of the entry
lies at or after the end of the key suffix. -/
def envEntrySplit (keyValue : String) : Option (String × String) :=
  if ("PGBACKREST_".data).isPrefixOf keyValue.data then
    match splitFirstEq (keyValue.data.drop 11) with
    | some (k, v) => some (envKeyDecode k, String.mk v)
    | none => none
  else none

/-- Split a character list on a separator character; the empty list yields one
empty field, matching strLstNewSplitZ. -/
def splitOnChar (sep : Char) : List Char → List (List Char)
  | [] => [[]]
  | c :: rest =>
    let r := splitOnChar sep rest
    if c = sep then [] :: r
    else
      match r with
      | h :: t => (c :: h) :: t
      | [] => [[c]]

/-- Split a multi-valued environment string on `':'`
(strLstNewSplitZ(value, ":")). -/
def splitColon (l : List Char) : List String :=
  (splitOnChar ':' l).map String.mk

/-- Process one environment entry (the body of the phase-2 loop).  Entries that
do not match the prefix, unknown options, negate/reset aliases, and options
not valid for the command/role are skipped; an empty value is a hard error. -/
def envEntryProcess (rules : ParseRules) (commandId commandRoleId : Nat) (keyValue : String)
    (store : Store) : Except ConfigError Store :=
  match envEntrySplit keyValue with
  | none => .ok store
  | some (key, value) =>
    let option := cfgParseOption rules key
    if !option.found then .ok store
    else if option.negate then .ok store
    else if option.reset then .ok store
    else if !cfgParseOptionValid rules commandId commandRoleId option.id then .ok store
    else if value = "" then .error (.envVariableMustHaveValue key)
    else
      let optionValue := storeGet store (option.id, option.keyIdx)
      if optionValue.found then .ok store
      else
        let base : ParseOptionValue := { optionValue with found := true, source := .config }
        if (rules.option option.id).type = .boolean then
          if value = "n" then .ok (storeSet store (option.id, option.keyIdx) { base with negate := true })
          else if value = "y" then .ok (storeSet store (option.id, option.keyIdx) base)
          else .error (.envBooleanInvalid key)
        else if (rules.option option.id).multi then
          .ok (storeSet store (option.id, option.keyIdx)
            { base with valueList := splitColon value.data })
        else
          .ok (storeSet store (option.id, option.keyIdx) { base with valueList := [value] })

/-- Phase 2 over the process environment, in host order. -/
def configParseEnv (rules : ParseRules) (commandId commandRoleId : Nat) (environList : List String)
    (store : Store) : Except ConfigError Store :=
  environList.foldlM (fun st e => envEntryProcess rules commandId commandRoleId e st) store

/-! ### Phase 3: configuration file -/

/-- Value of one INI key as produced by the external INI collaborator: either
a plain value or a multi-value list (`key[]=` syntax). -/
inductive IniValue where
  | single (s : String)
  | vlist (l : List String)
  deriving DecidableEq

/-- An INI document: the ordered key list of each section
(iniSectionKeyList combined with iniGet / iniGetList / iniSectionKeyIsList). -/
def Ini := String → List (String × IniValue)

/-- Build the section search list: `[stanza:command]` and `[stanza]` when a
stanza is known, then `[global:command]` and `[global]`. -/
def sectionListBuild (stanza : Option String) (commandName : String) : List String :=
  (match stanza with
   | some s => [s ++ ":" ++ commandName, s]
   | none => []) ++ ["global:" ++ commandName, "global"]

/-- Process one key of one configuration section.  `optionFound` is the
per-section duplicate-alias map keyed by
`option.id * CFG_OPTION_KEY_MAX + option.keyIdx`. -/
def configKeyApply (rules : ParseRules) (commandId commandRoleId : Nat) (sectionIdx : Nat)
    (sectionName : String) (kv : String × IniValue) (optionFound : List (Nat × String))
    (store : Store) : Except ConfigError (List (Nat × String) × Store) :=
  let key := kv.1
  let option := cfgParseOption rules key
  if !option.found then .ok (optionFound, store)
  else if option.negate then .ok (optionFound, store)
  else if option.reset then .ok (optionFound, store)
  else if (rules.option option.id).sec = .commandLine then .ok (optionFound, store)
  else
    let optionFoundKey := option.id * CFG_OPTION_KEY_MAX + option.keyIdx
    match optionFound.find? (fun e => e.1 = optionFoundKey) with
    | some e => .error (.duplicateOption key e.2 sectionName)
    | none =>
      let optionFound := (optionFoundKey, key) :: optionFound
      -- An option invalid for the command/role is skipped; the warning is
      -- only emitted when the section is command-scoped (even sectionIdx).
      if !cfgParseOptionValid rules commandId commandRoleId option.id then .ok (optionFound, store)
      else if (rules.option option.id).sec = .stanza
          && ("global".data).isPrefixOf sectionName.data then
        .ok (optionFound, store)
      else
        let optionValue := storeGet store (option.id, option.keyIdx)
        if optionValue.found then .ok (optionFound, store)
        else
          let base : ParseOptionValue := { optionValue with found := true, source := .config }
          match kv.2 with
          | .vlist ls =>
            if !(rules.option option.id).multi then
              .error (.setMultipleTimes option.id option.keyIdx)
            else
              .ok (optionFound, storeSet store (option.id, option.keyIdx)
                { base with valueList := ls })
          | .single value =>
            if value = "" then .error (.sectionKeyMustHaveValue sectionName key)
            else if (rules.option option.id).type = .boolean then
              if value = "n" then
                .ok (optionFound, storeSet store (option.id, option.keyIdx)
                  { base with negate := true })
              else if value = "y" then
                .ok (optionFound, storeSet store (option.id, option.keyIdx) base)
              else .error (.configBooleanInvalid key)
            else
              .ok (optionFound, storeSet store (option.id, option.keyIdx)
                { base with valueList := [value] })

/-- Process one configuration section: fold its keys with a fresh
duplicate-alias map. -/
def configSectionApply (rules : ParseRules) (commandId commandRoleId : Nat) (sectionIdx : Nat)
    (sectionName : String) (keys : List (String × IniValue)) (store : Store) :
    Except ConfigError Store :=
  (keys.foldlM
    (fun acc kv => configKeyApply rules commandId commandRoleId sectionIdx sectionName kv acc.1 acc.2)
    (([] : List (Nat × String)), store)).map (fun acc => acc.2)

/-- Fold over an explicit `(index, name)` section list. -/
def configSectionsApply (rules : ParseRules) (commandId commandRoleId : Nat)
    (sections : List (Nat × String)) (ini : Ini) (store : Store) : Except ConfigError Store :=
  sections.foldlM
    (fun st sec => configSectionApply rules commandId commandRoleId sec.1 sec.2 (ini sec.2) st)
    store

/-- Phase 3: merge the configuration file sections in search order. -/
def configFilePhase (rules : ParseRules) (commandId commandRoleId : Nat) (stanza : Option String)
    (ini : Ini) (store : Store) : Except ConfigError Store :=
  configSectionsApply rules commandId commandRoleId
    ((sectionListBuild stanza (rules.commandName commandId)).enum) ini store

/-! ### Phase 4: group index resolution -/

/-- cfgOptGrpPg: the pg option group id.  Modelled from the spec: the group
ids are generated data (parse.auto.c); the `pg` group is group 0 and `repo`
group 1. -/
def cfgOptGrpPg : Nat := 0

/-- Per-group data in the final Config relevant to index resolution: the dense
index total and the key-index map, zero-initialised with the Config. -/
structure ConfigOptionGroupData where
  valid : Bool := false
  indexTotal : Nat := 0
  indexMap : Nat → Nat := fun _ => 0

/-- Write the used key indexes of one group into its dense index map, in
ascending key order (the second loop of phase 4).  For the pg group both the
scan start and the write position start at 1, so entry 0 keeps its zero
initialisation.  When no index is in use the total becomes 1 and the map is
untouched. -/
def groupIndexWriteStep (groupIdxMap : Nat → Bool) (acc : (Nat → Nat) × Nat)
    (optionKeyIdx : Nat) : (Nat → Nat) × Nat :=
  if groupIdxMap optionKeyIdx then
    (fun i => if i = acc.2 then optionKeyIdx else acc.1 i, acc.2 + 1)
  else acc

/-- The index-map write pass for one group (second loop of phase 4). -/
def groupIndexWrite (groupId : Nat) (groupIdxMap : Nat → Bool) (g : ConfigOptionGroupData) :
    ConfigOptionGroupData :=
  if !g.valid then g
  else if g.indexTotal = 0 then { g with indexTotal := 1 }
  else
    let start := if groupId = cfgOptGrpPg then 1 else 0
    let final := (List.range' start (CFG_OPTION_KEY_MAX - start)).foldl
      (groupIndexWriteStep groupIdxMap) (g.indexMap, start)
    { g with indexMap := final.1 }

/-! ### Phase 5: validation and materialisation (one option slot) -/

/-- Final configuration value for one (option, index) slot
(ConfigOptionValue). -/
structure ConfigOptionValue where
  value : Option Value := none
  source : ConfigSource := .default
  negate : Bool := false
  reset : Bool := false
  deriving DecidableEq

/-- Time parse: cvtZToDouble(value) * MSEC_PER_SEC cast to int64.  Modelled
exactly for decimal literals (the double arithmetic is exact at the precisions
accepted in practice); errors on malformed input or int64 overflow. -/
def timeParseMs (s : String) : Option Int :=
  let parse : List Char → Option Nat := fun l =>
    let ip := l.takeWhile Char.isDigit
    let rest := l.drop ip.length
    match rest with
    | [] => if ip.isEmpty then none else some (digitsVal ip * 1000)
    | '.' :: fs =>
      if fs.all Char.isDigit && !(ip.isEmpty && fs.isEmpty) then
        some ((digitsVal ip * 10 ^ fs.length + digitsVal fs) * 1000 / 10 ^ fs.length)
      else none
    | _ => none
  match s.data with
  | '-' :: rest => (parse rest).bind (fun n => if n ≤ 2 ^ 63 then some (-(n : Int)) else none)
  | l => (parse l).bind (fun n => if n < 2 ^ 63 then some (n : Int) else none)

/-- kvPut on a string key/value association list: an existing key keeps its
position and receives the new value (duplicate hash keys: last wins). -/
def kvPutStr (kvs : List (String × String)) (k v : String) : List (String × String) :=
  match kvs with
  | [] => [(k, v)]
  | e :: rest => if e.1 = k then (k, v) :: rest else e :: kvPutStr rest k v

/-- Parse the value tokens of a hash-typed option: each token must contain
`'='`; the first `'='` separates key from value. -/
def hashParse (optionId keyIdx : Nat) :
    List String → List (String × String) → Except ConfigError (List (String × String))
  | [], acc => .ok acc
  | pair :: rest, acc =>
    match splitFirstEq pair.data with
    | none => .error (.keyValueInvalid pair optionId keyIdx)
    | some (k, v) => hashParse optionId keyIdx rest (kvPutStr acc (String.mk k) (String.mk v))

/-- strstr(value, "//") != NULL. -/
def containsDoubleSlash : List Char → Bool
  | '/' :: '/' :: _ => true
  | _ :: rest => containsDoubleSlash rest
  | [] => false

/-- Path shape checks: non-empty is checked by the caller; the value must
begin with `/`, must not contain `//`, and a trailing `/` is stripped unless
the value is exactly `/`. -/
def pathCheck (optionId keyIdx : Nat) (value : String) : Except ConfigError String :=
  if !(("/".data).isPrefixOf value.data) then
    .error (.mustBeginWithSlash value optionId keyIdx)
  else if containsDoubleSlash value.data then
    .error (.cannotContainSlashSlash value optionId keyIdx)
  else if value.data.getLast? = some '/' && value.data.length ≠ 1 then
    .ok (String.mk value.data.dropLast)
  else .ok value

/-- Coerce an already-materialised depend-option value to the string compared
against the depend list: booleans become "1"/"0"; other depend targets are
strings or paths (asserted in the source). -/
def dependValueStr (rules : ParseRules) (dependOptionId : Nat) (v : Value) : String :=
  match (rules.option dependOptionId).type, v with
  | .boolean, .boolean b => if b then "1" else "0"
  | _, .strng s => s
  | _, _ => ""

/-- Does the dependency of (command, option) resolve, given the materialised
values of earlier options at the same list index?  This is the resolution
outcome independent of the source-escalation errors. -/
def dependResolvedPure (rules : ParseRules) (commandId optionId : Nat)
    (dependValueAt : Nat → Option Value) : Bool :=
  let depend := parseRuleOptionDataFind rules .depend commandId optionId
  if depend.found then
    match dependValueAt depend.data with
    | none => false
    | some v =>
      decide (depend.listSize = 0) || depend.list.contains (dependValueStr rules depend.data v)
  else true

/-- Dependency check of one slot (lines of phase 5 between the depend lookup
and the materialisation): returns whether the dependency resolved, raising
OptionInvalid when an unresolved dependency was set on the command line. -/
def dependCheck (rules : ParseRules) (commandId optionId keyIdx : Nat) (optionSet : Bool)
    (source : ConfigSource) (dependValueAt : Nat → Option Value) : Except ConfigError Bool :=
  let depend := parseRuleOptionDataFind rules .depend commandId optionId
  if depend.found then
    match dependValueAt depend.data with
    | none =>
      if optionSet && source = .param then
        .error (.dependUnresolved optionId keyIdx depend.data)
      else .ok false
    | some v =>
      if depend.listSize > 0 then
        if depend.list.contains (dependValueStr rules depend.data v) then .ok true
        else if optionSet && source = .param then
          .error (.dependValueInvalid optionId keyIdx depend.data)
        else .ok false
      else .ok true
  else .ok true

/-- Materialise the value of a set non-boolean scalar/list/hash slot (the
body of the `optionSet` branch of phase 5, minus the boolean case). -/
def validateOptionSet (rules : ParseRules) (commandId optionId keyIdx : Nat)
    (valueList : List String) : Except ConfigError Value :=
  if (rules.option optionId).type = .hash then
    match hashParse optionId keyIdx valueList [] with
    | .error e => .error e
    | .ok kvs => .ok (.kv kvs)
  else if (rules.option optionId).type = .vlist then
    .ok (.strList valueList)
  else if (rules.option optionId).type = .integer || (rules.option optionId).type = .size ||
      (rules.option optionId).type = .time then
    match
      (if (rules.option optionId).type = .integer then cvtZToInt64 (valueList.getD 0 "")
       else if (rules.option optionId).type = .size then
         (convertToByte (valueList.getD 0 "")).map
           (fun n => if n < 2 ^ 63 then (n : Int) else (n : Int) - 2 ^ 64)
       else timeParseMs (valueList.getD 0 "")) with
    | none => .error (.valueInvalid (valueList.getD 0 "") optionId keyIdx)
    | some valueInt64 =>
      if (parseRuleOptionDataFind rules .allowRange commandId optionId).found &&
          (valueInt64 < (parseRuleOptionDataFind rules .allowRange commandId optionId).ints.getD 0 0 ||
           valueInt64 > (parseRuleOptionDataFind rules .allowRange commandId optionId).ints.getD 1 0) then
        .error (.outOfRange (valueList.getD 0 "") optionId keyIdx)
      else if (parseRuleOptionDataFind rules .allowList commandId optionId).found &&
          !(parseRuleOptionDataFind rules .allowList commandId optionId).list.contains
            (if (rules.option optionId).type = .size then toString valueInt64
             else valueList.getD 0 "") then
        .error (.notAllowed (valueList.getD 0 "") optionId keyIdx)
      else .ok (.int64 valueInt64)
  else if valueList.getD 0 "" = "" then
    .error (.valueTooSmall (valueList.getD 0 "") optionId keyIdx)
  else
    match
      (if (rules.option optionId).type = .path then pathCheck optionId keyIdx (valueList.getD 0 "")
       else .ok (valueList.getD 0 "")) with
    | .error e => .error e
    | .ok value2 =>
      if (parseRuleOptionDataFind rules .allowList commandId optionId).found &&
          !(parseRuleOptionDataFind rules .allowList commandId optionId).list.contains value2 then
        .error (.notAllowed value2 optionId keyIdx)
      else .ok (.strng value2)

/-- Parse a default string by option type (the default-application block of
phase 5); booleans compare against "1"; numeric defaults go through
cvtZToInt64 and a conversion failure is a FormatError. -/
def defaultParse (optionType : ConfigOptionType) (value : String) : Except ConfigError Value :=
  if optionType = .boolean then .ok (.boolean (value = "1"))
  else if optionType = .path || optionType = .strng then .ok (.strng value)
  else
    match cvtZToInt64 value with
    | some i => .ok (.int64 i)
    | none => .error (.formatError value)

/-- The OptionRequired hint appended when the option's section is stanza. -/
def stanzaHint : String := "\nHINT: does this stanza exist?"

/-- Validate and materialise one (option, list index) slot of phase 5:
compute `optionSet`, resolve the dependency, then either parse the set value,
record a negated non-boolean, apply the default, or raise OptionRequired.
`dependValueAt` reads the already-materialised value of the depend option at
the same list index (options are processed in resolve order). -/
def validateOption (rules : ParseRules) (commandId : Nat) (help : Bool) (optionId keyIdx : Nat)
    (pov : ParseOptionValue) (dependValueAt : Nat → Option Value) :
    Except ConfigError ConfigOptionValue :=
  match dependCheck rules commandId optionId keyIdx
      (pov.found && ((rules.option optionId).type = .boolean || !pov.negate) && !pov.reset)
      pov.source dependValueAt with
  | .error e => .error e
  | .ok dependResolved =>
    if dependResolved then
      if pov.found && ((rules.option optionId).type = .boolean || !pov.negate) && !pov.reset then
        if (rules.option optionId).type = .boolean then
          .ok { negate := pov.negate, reset := pov.reset, source := pov.source,
                value := some (.boolean (!pov.negate)) }
        else
          match validateOptionSet rules commandId optionId keyIdx pov.valueList with
          | .error e => .error e
          | .ok v =>
            .ok { negate := pov.negate, reset := pov.reset, source := pov.source,
                  value := some v }
      else if pov.negate then
        .ok { negate := pov.negate, reset := pov.reset, source := pov.source }
      else
        match cfgParseOptionDefault rules commandId optionId with
        | some value =>
          match defaultParse (rules.option optionId).type value with
          | .error e => .error e
          | .ok dv => .ok { negate := pov.negate, reset := pov.reset, value := some dv }
        | none =>
          if cfgParseOptionRequired rules commandId optionId && !help then
            .error (.optionRequired commandId optionId keyIdx
              (if (rules.option optionId).sec = .stanza then stanzaHint else ""))
          else .ok { negate := pov.negate, reset := pov.reset }
    else .ok { negate := pov.negate, reset := pov.reset }

/-! ### Specification-side definitions

These definitions follow the wording of the specification (or its amended
form) and are compared with the embedded source functions above. -/

/-- The characters that may appear in the qualifier part of a size value. -/
def sizeQualChars : List Char := ['k', 'm', 'g', 't', 'p', 'b']

/-- Qualifier multiplier of the accepted size-value language: no qualifier,
one qualifier letter, a two-letter qualifier ending in `b` (this includes
`bb`, which the source accepts with multiplier 1). -/
def sizeSpecMultiplier : List Char → Option Nat
  | [] => some 1
  | [c] => if c ∈ sizeQualChars then sizeQualifierToMultiplier c else none
  | [c, c2] => if c ∈ sizeQualChars ∧ c2 = 'b' then sizeQualifierToMultiplier c else none
  | _ => none

/-- Specification-side size conversion on a lowercased value: split into the
maximal digit run and the qualifier, require a recognised qualifier shape and
a digit value below 2^64, multiply modulo 2^64. -/
def convertToByteSpecLower (l : List Char) : Option Nat :=
  let ds := l.takeWhile Char.isDigit
  if ds.isEmpty then none
  else
    match sizeSpecMultiplier (l.drop ds.length) with
    | none => none
    | some m =>
      match cvtZToUInt64 ds with
      | none => none
      | some n => some (n * m % 2 ^ 64)

/-- Specification-side size conversion. -/
def convertToByteSpec (value : String) : Option Nat :=
  convertToByteSpecLower (value.data.map Char.toLower)

/-- Accumulating last-match over a run of unscoped records, exactly as the
optional-data search loop overwrites its result. -/
def lastMatchFrom (typeFind : ParseRuleOptionDataType) (res : ParseRuleOptionData) :
    List DataRecord → ParseRuleOptionData
  | [] => res
  | r :: rest =>
    lastMatchFrom typeFind (if r.type = typeFind then dataRecordResult r else res) rest

/-- Flatten a list of command-scoped blocks into a record stream: every block
is a Command record followed by the block's records. -/
def blocksFlatten : List (Nat × List DataRecord) → List DataRecord
  | [] => []
  | (c, rs) :: bs => ({ type := .command, data := c } : DataRecord) :: (rs ++ blocksFlatten bs)

/-- Character transform used to build an environment variable name from an
option name: `-` becomes `_`, letters are uppercased. -/
def envKeyEncodeChar (c : Char) : Char :=
  if c = '-' then '_' else c.toUpper

/-- `PGBACKREST_<name uppercased, - replaced by _>`. -/
def envKeyEncode (name : String) : String :=
  String.mk (name.data.map envKeyEncodeChar)

/-- The characters option names are built from. -/
def optionNameChars : List Char :=
  ['a', 'b', 'c', 'd', 'e', 'f', 'g', 'h', 'i', 'j', 'k', 'l', 'm', 'n', 'o', 'p', 'q', 'r',
   's', 't', 'u', 'v', 'w', 'x', 'y', 'z', '0', '1', '2', '3', '4', '5', '6', '7', '8', '9', '-']

/-- The argv occurrence equivalent to supplying `name=v`: for booleans,
`--name` when v = "y" and `--no-name` when v = "n" (no argument); otherwise
`--name=v`. -/
def argvEquivalentOccurrence (optionType : ConfigOptionType) (aliasInfo : CfgParseOptionResult)
    (v : String) : ArgvOccurrence :=
  if optionType = .boolean then { opt := { aliasInfo with negate := v = "n" }, hasArg := false }
  else { opt := aliasInfo, hasArg := true, arg := v }

/-- Forget the provenance tag of a materialised value (used to state
"identical modulo source"). -/
def eraseSource (c : ConfigOptionValue) : ConfigOptionValue :=
  { c with source := .default }

/-! ### Concrete rule tables for counterexamples and witnesses

The real table is generated (parse.auto.c); these miniature instances only
have to be valid inhabitants of the rule-table shape. -/

/-- One ungrouped string option "config" that is command-line-only, valid for
every command and role. -/
def rulesCmdLineOnly : ParseRules :=
  { option := fun _ =>
      { name := "config", type := .strng, sec := .commandLine,
        commandRoleValid := fun _ _ => true },
    aliasList := [("config", { found := true })],
    commandName := fun _ => "backup" }

/-- A rule table whose option 0 carries an optional-data stream with two
Default records inside the block of command 7. -/
def rulesTwoDefaults : ParseRules :=
  { option := fun _ =>
      { name := "compress-level",
        data := [{ type := .command, data := 7 },
                 { type := .default, data := 1, list := ["A"] },
                 { type := .default, data := 2, list := ["B"] }] },
    commandName := fun _ => "backup" }

/-- One ungrouped string option "x", valid everywhere. -/
def rulesPlain : ParseRules :=
  { option := fun _ =>
      { name := "x", type := .strng, sec := .global, commandRoleValid := fun _ _ => true },
    aliasList := [("x", { found := true })],
    commandName := fun _ => "backup" }

/-- One secure string option "repo-cipher-pass", valid everywhere. -/
def rulesSecure : ParseRules :=
  { option := fun _ =>
      { name := "repo-cipher-pass", type := .strng, sec := .global, secure := true,
        commandRoleValid := fun _ _ => true },
    aliasList := [("repo-cipher-pass", { found := true })],
    commandName := fun _ => "backup" }

/-- One boolean option "online", valid everywhere. -/
def rulesBool : ParseRules :=
  { option := fun _ =>
      { name := "online", type := .boolean, sec := .global,
        commandRoleValid := fun _ _ => true },
    aliasList := [("online", { found := true }), ("no-online", { found := true, negate := true })],
    commandName := fun _ => "backup" }

/-- One multi-valued string option "include", valid everywhere. -/
def rulesMulti : ParseRules :=
  { option := fun _ =>
      { name := "include", type := .strng, sec := .global, multi := true,
        commandRoleValid := fun _ _ => true },
    aliasList := [("include", { found := true })],
    commandName := fun _ => "backup" }

/-- A required stanza-section option with no default (for the OptionRequired
witness). -/
def rulesRequiredStanza : ParseRules :=
  { option := fun _ =>
      { name := "pg-path", type := .path, sec := .stanza, required := true,
        commandRoleValid := fun _ _ => true },
    aliasList := [("pg-path", { found := true })],
    commandName := fun _ => "backup" }

/-- All found slots carry the param source (the phase-1 invariant). -/
def ParamInv (s : Store) : Prop :=
  ∀ k, (storeGet s k).found = true → (storeGet s k).source = ConfigSource.param

/-- Concrete INI document, argv occurrence, and expected post-argv store used
by pipeline witnesses. -/
def iniC1 : Ini := fun sec => if sec = "global" then [("x", IniValue.single "c")] else []

/-- A concrete argv occurrence setting option 0 to "a". -/
def occC1 : ArgvOccurrence := { opt := { found := true }, hasArg := true, arg := "a" }

/-- The store after the witness argv phase. -/
def storeC1 : Store :=
  [((0, 0), { found := true, source := ConfigSource.param, valueList := ["a"] })]


/-! ## Helper lemmas -/

theorem storeGet_storeSet_same (s : Store) (k : Nat × Nat) (v : ParseOptionValue) :
    storeGet (storeSet s k v) k = v := by
  induction s with
  | nil => simp [storeSet, storeGet]
  | cons e rest ih =>
    by_cases h : e.1 = k
    · simp [storeSet, h, storeGet]
    · simpa [storeSet, h, storeGet] using ih

theorem storeGet_storeSet_other (s : Store) (k k' : Nat × Nat) (v : ParseOptionValue)
    (h : k' ≠ k) : storeGet (storeSet s k v) k' = storeGet s k' := by
  induction s with
  | nil => simp [storeSet, storeGet, Ne.symm h]
  | cons e rest ih =>
    by_cases he : e.1 = k
    · subst he
      simp [storeSet, storeGet, Ne.symm h]
    · by_cases he' : e.1 = k'
      · simp [storeSet, he, storeGet, he', h]
      · simpa [storeSet, he, storeGet, he'] using ih

theorem groupIndexFold_zero (gmap : Nat → Bool) (l : List Nat) (acc : (Nat → Nat) × Nat)
    (hpos : 1 ≤ acc.2) (hzero : acc.1 0 = 0) :
    (l.foldl (groupIndexWriteStep gmap) acc).1 0 = 0 := by
  induction l generalizing acc with
  | nil => exact hzero
  | cons x xs ih =>
    simp only [List.foldl_cons]
    refine ih _ ?_ ?_
    · by_cases h : gmap x <;> simp [groupIndexWriteStep, h] <;> omega
    · by_cases h : gmap x
      · have hne : (0 : Nat) ≠ acc.2 := by omega
        simp [groupIndexWriteStep, h, hne]
        exact hzero
      · simpa [groupIndexWriteStep, h] using hzero

/-! ## Claim theorems -/

/-- C10: for the pg option group, entry 0 of the index map always holds key
index 0: the write loop scans from key index 1 and writes from dense position
1, so position 0 keeps the zero initialisation of the Config for every
group-usage map and every index total (including an index total computed from
keys other than key 0, and the untouched-map case of index total 0). -/
theorem c10_pg_index_zero_reserved (groupIdxMap : Nat → Bool) (validFlag : Bool)
    (indexTotal : Nat) :
    (groupIndexWrite cfgOptGrpPg groupIdxMap
      { valid := validFlag, indexTotal := indexTotal }).indexMap 0 = 0 := by
  unfold groupIndexWrite
  by_cases hv : validFlag
  · by_cases ht : indexTotal = 0
    · simp [hv, ht]
    · simp only [hv, Bool.not_true, Bool.false_eq_true, if_false, ht]
      exact groupIndexFold_zero _ _ _ (le_refl 1) rfl
  · simp [hv]

/-- C4 (counterexample): when the accumulator already exists but is the empty
string, the source inserts the newline separator even though the accumulator
is empty, so a first part appended to an existing empty accumulator carries a
leading separator, contradicting "separator iff the accumulator is
non-empty". -/
theorem c4_empty_accumulator_counterexample :
    cfgFileLoadPart (some "") (some "x") = some "\nx" ∧ ("\nx" : String) ≠ "x" := by
  exact ⟨rfl, by decide⟩

/-- C4 (amended): cfgFileLoadPart appends a non-empty part with a newline
separator if and only if the accumulator is non-null (including a null
accumulator replaced by the empty string, so the first part of a run that
starts with no accumulator is stored without a leading separator), and a null
or empty part leaves the accumulator unchanged. -/
theorem c4_load_part_separator :
    (∀ acc p : String, p ≠ "" → cfgFileLoadPart (some acc) (some p) = some (acc ++ "\n" ++ p)) ∧
    (∀ p : String, p ≠ "" → cfgFileLoadPart none (some p) = some p) ∧
    (∀ acc : Option String, cfgFileLoadPart acc (some "") = acc ∧ cfgFileLoadPart acc none = acc) := by
  have hlen : ∀ p : String, p ≠ "" → 0 < p.length := by
    intro p hp
    cases p with
    | mk data =>
      cases data with
      | nil => exact absurd rfl hp
      | cons c cs => simp [String.length]
  refine ⟨?_, ?_, ?_⟩
  · intro acc p hp
    simp [cfgFileLoadPart, hlen p hp]
  · intro p hp
    simp only [cfgFileLoadPart, hlen p hp, if_pos]
    cases p with
    | mk data => rfl
  · intro acc
    exact ⟨by simp [cfgFileLoadPart], rfl⟩

/-- C4 witness: the amended theorem applied at concrete inputs. -/
theorem c4_load_part_separator_witness :
    cfgFileLoadPart (some "a") (some "b") = some ("a" ++ "\n" ++ "b") :=
  c4_load_part_separator.1 "a" "b" (by decide)

/-- C3 (counterexample): "1bb" does not match
`^[0-9]+(kb|k|mb|m|gb|g|tb|t|pb|p|b)?$` yet the source accepts it (the
regex actually used has a Kleene star on the qualifier group) and converts it
to 1 byte; conversely "18446744073709551616" matches the claimed regex yet is
rejected (uint64 overflow in cvtZToUInt64). -/
theorem c3_convert_counterexample :
    convertToByte "1bb" = some 1 ∧ convertToByte "18446744073709551616" = none := by
  exact ⟨rfl, rfl⟩

/-- C2 (counterexample): the environment importer performs no section check,
so a command-line-only option that is valid for the command and role is
stored into the parsed option list from a PGBACKREST_ environment variable. -/
theorem c2_env_cmdline_counterexample :
    envEntryProcess rulesCmdLineOnly 0 0 "PGBACKREST_CONFIG=/cfg" emptyStore =
      .ok [((0, 0), { found := true, source := .config, valueList := ["/cfg"] })] ∧
    (rulesCmdLineOnly.option 0).sec = .commandLine := by
  exact ⟨rfl, rfl⟩

/-- C2 (amended): options whose rule section is command-line-only never take
effect from a configuration file: every configuration-file occurrence of such
an option, in any section, is skipped without touching the parsed option
store (the environment importer, by contrast, performs no section check and
does store such options, as the counterexample shows). -/
theorem c2_config_cmdline_only_skipped (rules : ParseRules)
    (commandId commandRoleId sectionIdx : Nat) (sectionName : String) (kv : String × IniValue)
    (optionFound : List (Nat × String)) (store : Store)
    (hsec : (rules.option (cfgParseOption rules kv.1).id).sec = .commandLine) :
    configKeyApply rules commandId commandRoleId sectionIdx sectionName kv optionFound store =
      .ok (optionFound, store) := by
  unfold configKeyApply
  by_cases h1 : (cfgParseOption rules kv.1).found
  · by_cases h2 : (cfgParseOption rules kv.1).negate
    · simp [h1, h2]
    · by_cases h3 : (cfgParseOption rules kv.1).reset
      · simp [h1, h2, h3]
      · simp [h1, h2, h3, hsec]
  · simp [h1]

/-- C2 witness: the amended theorem applied to a command-line-only option in
the global section. -/
theorem c2_config_cmdline_only_skipped_witness :
    configKeyApply rulesCmdLineOnly 0 0 3 "global" ("config", .single "/cfg") [] emptyStore =
      .ok ([], emptyStore) :=
  c2_config_cmdline_only_skipped rulesCmdLineOnly 0 0 3 "global" ("config", .single "/cfg") []
    emptyStore rfl

/-- C9: an environment entry with an empty value is a hard OptionInvalidValue
error exactly when the decoded option name resolves to a known alias that is
not a negate or reset alias and whose option is valid for the current command
and role; in every other case the empty-valued entry is skipped and the store
is unchanged. -/
theorem c9_env_empty_value (rules : ParseRules) (commandId commandRoleId : Nat) (entry : String)
    (store : Store) (key value : String)
    (hsplit : envEntrySplit entry = some (key, value)) (hempty : value = "") :
    envEntryProcess rules commandId commandRoleId entry store =
      (if (cfgParseOption rules key).found = true ∧ (cfgParseOption rules key).negate = false ∧
          (cfgParseOption rules key).reset = false ∧
          cfgParseOptionValid rules commandId commandRoleId (cfgParseOption rules key).id = true
       then .error (.envVariableMustHaveValue key)
       else .ok store) := by
  unfold envEntryProcess
  rw [hsplit]
  subst hempty
  by_cases h1 : (cfgParseOption rules key).found
  · by_cases h2 : (cfgParseOption rules key).negate
    · simp [h1, h2]
    · by_cases h3 : (cfgParseOption rules key).reset
      · simp [h1, h2, h3]
      · by_cases h4 : cfgParseOptionValid rules commandId commandRoleId (cfgParseOption rules key).id
        · simp [h1, h2, h3, h4]
        · simp [h1, h2, h3, h4]
  · simp [h1]

/-- C9 witness: a known, valid option with an empty environment value raises
the error; evaluated through the theorem. -/
theorem c9_env_empty_value_witness :
    envEntryProcess rulesPlain 0 0 "PGBACKREST_X=" emptyStore =
      .error (.envVariableMustHaveValue "x") := by
  rw [c9_env_empty_value rulesPlain 0 0 "PGBACKREST_X=" emptyStore "x" "" rfl rfl]
  rfl

theorem dataFindLoop_unscoped (typeFind : ParseRuleOptionDataType) (c : Nat)
    (pre rest : List DataRecord) (res : ParseRuleOptionData)
    (hpre : ∀ r ∈ pre, r.type ≠ .command) :
    parseRuleOptionDataFindLoop typeFind c (pre ++ rest) none res =
      parseRuleOptionDataFindLoop typeFind c rest none (lastMatchFrom typeFind res pre) := by
  induction pre generalizing res with
  | nil => rfl
  | cons r pre ih =>
    have hr : r.type ≠ .command := hpre r (List.mem_cons_self _ _)
    have hpre' : ∀ x ∈ pre, x.type ≠ .command := fun x hx => hpre x (List.mem_cons_of_mem _ hx)
    by_cases hm : r.type = typeFind
    · have htf : typeFind ≠ .command := hm ▸ hr
      simp only [List.cons_append, parseRuleOptionDataFindLoop, lastMatchFrom, hr, hm, htf,
        List.append_eq, if_false, if_true, ite_true, ite_false, true_and, or_false, false_or,
        reduceCtorEq, and_true, and_false, reduceIte]
      exact ih _ hpre'
    · simp only [List.cons_append, parseRuleOptionDataFindLoop, lastMatchFrom, hr, hm,
        List.append_eq, if_false, if_true, ite_true, ite_false, false_and, reduceIte]
      exact ih _ hpre'


theorem dataFindLoop_skip_block (typeFind : ParseRuleOptionDataType) (c d : Nat)
    (rs rest : List DataRecord) (res : ParseRuleOptionData) (hd : d ≠ c)
    (hrs : ∀ r ∈ rs, r.type ≠ .command) :
    parseRuleOptionDataFindLoop typeFind c (rs ++ rest) (some d) res =
      parseRuleOptionDataFindLoop typeFind c rest (some d) res := by
  induction rs with
  | nil => rfl
  | cons r rs ih =>
    have hr : r.type ≠ .command := hrs r (List.mem_cons_self _ _)
    have hrs' : ∀ x ∈ rs, x.type ≠ .command := fun x hx => hrs x (List.mem_cons_of_mem _ hx)
    simp only [List.cons_append, parseRuleOptionDataFindLoop, List.append_eq]
    rw [if_neg hr, if_neg (by simp [hd] : ¬(r.type = typeFind ∧
      ((some d : Option Nat) = none ∨ (some d : Option Nat) = some c)))]
    exact ih hrs'

theorem dataFindLoop_first_in_block (typeFind : ParseRuleOptionDataType) (c : Nat)
    (rs rest : List DataRecord) (res : ParseRuleOptionData)
    (hrs : ∀ r ∈ rs, r.type ≠ .command) :
    parseRuleOptionDataFindLoop typeFind c (rs ++ rest) (some c) res =
      (match rs.find? (fun r => r.type = typeFind) with
       | some r => dataRecordResult r
       | none => parseRuleOptionDataFindLoop typeFind c rest (some c) res) := by
  induction rs with
  | nil => rfl
  | cons r rs ih =>
    have hr : r.type ≠ .command := hrs r (List.mem_cons_self _ _)
    have hrs' : ∀ x ∈ rs, x.type ≠ .command := fun x hx => hrs x (List.mem_cons_of_mem _ hx)
    by_cases hm : r.type = typeFind
    · simp only [List.cons_append, parseRuleOptionDataFindLoop, List.append_eq]
      rw [if_neg hr, if_pos (by simp [hm])]
      simp [List.find?, hm]
    · simp only [List.cons_append, parseRuleOptionDataFindLoop, List.append_eq]
      rw [if_neg hr, if_neg (by simp [hm])]
      rw [ih hrs']
      simp [List.find?, hm]

theorem dataFindLoop_break (typeFind : ParseRuleOptionDataType) (c : Nat)
    (blocks : List (Nat × List DataRecord)) (res : ParseRuleOptionData) :
    parseRuleOptionDataFindLoop typeFind c (blocksFlatten blocks) (some c) res = res := by
  cases blocks with
  | nil => rfl
  | cons b bs =>
    obtain ⟨cb, rsb⟩ := b
    simp [blocksFlatten, parseRuleOptionDataFindLoop]


theorem dataFindLoop_blocks (typeFind : ParseRuleOptionDataType) (c : Nat)
    (blocks : List (Nat × List DataRecord)) (cc : Option Nat) (res : ParseRuleOptionData)
    (hcc : cc ≠ some c)
    (hblocks : ∀ b ∈ blocks, ∀ r ∈ b.2, r.type ≠ .command) :
    parseRuleOptionDataFindLoop typeFind c (blocksFlatten blocks) cc res =
      (match blocks.find? (fun b => b.1 = c) with
       | some b =>
         match b.2.find? (fun r => r.type = typeFind) with
         | some r => dataRecordResult r
         | none => res
       | none => res) := by
  induction blocks generalizing cc with
  | nil => cases cc <;> rfl
  | cons b bs ih =>
    obtain ⟨cb, rsb⟩ := b
    have hrsb : ∀ r ∈ rsb, r.type ≠ .command := hblocks (cb, rsb) (List.mem_cons_self _ _)
    have hbs : ∀ x ∈ bs, ∀ r ∈ x.2, r.type ≠ .command :=
      fun x hx => hblocks x (List.mem_cons_of_mem _ hx)
    simp only [blocksFlatten, parseRuleOptionDataFindLoop, if_pos rfl, if_neg hcc, ite_true,
      ite_false, reduceIte]
    by_cases hcb : cb = c
    · subst hcb
      rw [dataFindLoop_first_in_block typeFind cb rsb _ res hrsb]
      cases hf : rsb.find? (fun r => decide (r.type = typeFind)) with
      | some r => simp [List.find?, hf]
      | none =>
        simp [dataFindLoop_break, List.find?, hf]
    · rw [dataFindLoop_skip_block typeFind c cb rsb _ res hcb hrsb]
      rw [ih (some cb) (by simp [hcb]) hbs]
      simp [List.find?, hcb]


/-- C5 (counterexample). -/
theorem c5_first_not_last_counterexample :
    parseRuleOptionDataFind rulesTwoDefaults .default 7 0 =
      dataRecordResult { type := .default, data := 1, list := ["A"] } ∧
    dataRecordResult { type := .default, data := 1, list := ["A"] } ≠
      dataRecordResult { type := .default, data := 2, list := ["B"] } := by
  exact ⟨rfl, by decide⟩

/-- C5 (amended). -/
theorem c5_data_find_characterization (rules : ParseRules)
    (typeFind : ParseRuleOptionDataType) (c optionId : Nat) (pre : List DataRecord)
    (blocks : List (Nat × List DataRecord))
    (hdata : (rules.option optionId).data = pre ++ blocksFlatten blocks)
    (hpre : ∀ r ∈ pre, r.type ≠ .command)
    (hblocks : ∀ b ∈ blocks, ∀ r ∈ b.2, r.type ≠ .command) :
    parseRuleOptionDataFind rules typeFind c optionId =
      (match blocks.find? (fun b => b.1 = c) with
       | some b =>
         match b.2.find? (fun r => r.type = typeFind) with
         | some r => dataRecordResult r
         | none => lastMatchFrom typeFind {} pre
       | none => lastMatchFrom typeFind {} pre) := by
  unfold parseRuleOptionDataFind
  rw [hdata, dataFindLoop_unscoped typeFind c pre _ _ hpre,
    dataFindLoop_blocks typeFind c blocks none _ (by simp) hblocks]

/-- C5 witness. -/
theorem c5_data_find_characterization_witness :
    parseRuleOptionDataFind rulesTwoDefaults .default 7 0 =
      dataRecordResult { type := .default, data := 1, list := ["A"] } := by
  rw [c5_data_find_characterization rulesTwoDefaults .default 7 0 []
    [(7, [{ type := .default, data := 1, list := ["A"] },
          { type := .default, data := 2, list := ["B"] }])]
    rfl (by simp) (by decide)]
  rfl

theorem tokenStarFuel_sizeQual (fuel : Nat) (l : List Char) (hl : l.length ≤ fuel) :
    tokenStarFuel sizeQualTokens fuel l = l.all (fun c => c ∈ sizeQualChars) := by
  induction fuel generalizing l with
  | zero =>
    cases l with
    | nil => rfl
    | cons c rest => simp at hl
  | succ fuel ih =>
    cases l with
    | nil => rfl
    | cons c rest =>
      simp only [List.length_cons, Nat.succ_le_succ_iff] at hl
      by_cases hc : c ∈ sizeQualChars
      · have hcopy := hc
        simp only [sizeQualChars, List.mem_cons, List.not_mem_nil, or_false] at hcopy
        have eRest : tokenStarFuel sizeQualTokens fuel rest =
            rest.all (fun c => c ∈ sizeQualChars) := ih rest hl
        rcases hcopy with h | h | h | h | h | h <;> subst h <;>
          (cases rest with
           | nil => simp [tokenStarFuel, sizeQualTokens, sizeQualChars]
           | cons d rest2 =>
             have eRest2 : tokenStarFuel sizeQualTokens fuel rest2 =
                 rest2.all (fun c => c ∈ sizeQualChars) :=
               ih rest2 (Nat.le_of_succ_le (by simpa using hl))
             simp only [sizeQualTokens] at eRest eRest2
             by_cases hd : d = 'b'
             · subst hd
               simp [tokenStarFuel, sizeQualTokens, sizeQualChars, List.isPrefixOf, eRest, eRest2]
             · have hd2 : ¬('b' = d) := fun h => hd h.symm
               simp [tokenStarFuel, sizeQualTokens, sizeQualChars, List.isPrefixOf, hd, hd2,
                 eRest])
      · simp only [sizeQualChars, List.mem_cons, List.not_mem_nil, or_false] at hc
        push_neg at hc
        obtain ⟨h1, h2, h3, h4, h5, h6⟩ := hc
        simp [tokenStarFuel, sizeQualTokens, sizeQualChars, Ne.symm h1, Ne.symm h2, Ne.symm h3,
          Ne.symm h4, Ne.symm h5, Ne.symm h6, h1, h2, h3, h4, h5, h6]

theorem drop_length_takeWhile (p : Char → Bool) (l : List Char) :
    l.drop (l.takeWhile p).length = l.dropWhile p := by
  induction l with
  | nil => rfl
  | cons c rest ih =>
    by_cases h : p c
    · simpa [List.takeWhile_cons, List.dropWhile_cons, h] using ih
    · simp [List.takeWhile_cons, List.dropWhile_cons, h]

theorem sizeQualChar_facts (c : Char) (hc : c ∈ sizeQualChars) :
    '9' < c ∧ ¬(c ≤ '9') ∧ c.isDigit = false := by
  fin_cases hc <;> exact ⟨by decide, by decide, by decide⟩

theorem digitChar_facts (c : Char) (hc : c.isDigit = true) :
    c ≤ '9' ∧ ¬('9' < c) ∧ ¬(c = 'b') := by
  have h9 : c ≤ '9' := by
    simp [Char.isDigit] at hc
    exact hc.2
  refine ⟨h9, not_lt.mpr h9, ?_⟩
  intro h
  subst h
  exact absurd h9 (by decide)

theorem cvtZToUInt64_none_of_nondigit (l : List Char) (c : Char) (hc : c ∈ l)
    (hd : c.isDigit = false) : cvtZToUInt64 l = none := by
  unfold cvtZToUInt64
  have hall : l.all Char.isDigit = false := by
    rw [Bool.eq_false_iff]
    intro hall
    rw [List.all_eq_true] at hall
    exact absurd (hall c hc) (by simp [hd])
  simp [hall]

theorem sizeChrPos_digits (ds : List Char) (hne : ds ≠ []) (hdsd : ∀ c ∈ ds, c.isDigit = true) :
    sizeChrPos ds = none := by
  have hn : 0 < ds.length := List.length_pos.mpr hne
  have hmem : ds.getD (ds.length - 1) ' ' ∈ ds := by
    rw [List.getD_eq_getElem _ _ (by omega)]
    exact List.getElem_mem _
  obtain ⟨hle, hnlt, hneb⟩ := digitChar_facts _ (hdsd _ hmem)
  unfold sizeChrPos
  rw [if_neg hneb, if_neg hnlt]

theorem sizeChrPos_one (ds : List Char) (c1 : Char) (hne : ds ≠ [])
    (hdsd : ∀ c ∈ ds, c.isDigit = true) (hc1 : c1 ∈ sizeQualChars) :
    sizeChrPos (ds ++ [c1]) = some ds.length := by
  have hn : 0 < ds.length := List.length_pos.mpr hne
  have hlen : (ds ++ [c1]).length = ds.length + 1 := by simp
  have hlast : (ds ++ [c1]).getD ((ds ++ [c1]).length - 1) ' ' = c1 := by
    rw [hlen]
    rw [List.getD_append_right _ _ _ _ (by omega)]
    simp
  obtain ⟨hgt, hnle, hnd⟩ := sizeQualChar_facts c1 hc1
  by_cases hb : c1 = 'b'
  · have hpen : (ds ++ [c1]).getD ((ds ++ [c1]).length - 2) ' ' = ds.getD (ds.length - 1) ' ' := by
      rw [hlen]
      have : ds.length + 1 - 2 = ds.length - 1 := by omega
      rw [this, List.getD_append _ _ _ _ (by omega)]
    have hmem : ds.getD (ds.length - 1) ' ' ∈ ds := by
      rw [List.getD_eq_getElem _ _ (by omega)]
      exact List.getElem_mem _
    obtain ⟨hle9, _, _⟩ := digitChar_facts _ (hdsd _ hmem)
    unfold sizeChrPos
    rw [hlast, if_pos hb, hpen, if_pos hle9, hlen]
    simp
  · unfold sizeChrPos
    rw [hlast, if_neg hb, if_pos hgt, hlen]
    simp

theorem sizeChrPos_two_b (ds : List Char) (c1 : Char) (hne : ds ≠ [])
    (hc1 : c1 ∈ sizeQualChars) :
    sizeChrPos (ds ++ [c1, 'b']) = some ds.length := by
  have hn : 0 < ds.length := List.length_pos.mpr hne
  have hlen : (ds ++ [c1, 'b']).length = ds.length + 2 := by simp
  have hlast : (ds ++ [c1, 'b']).getD ((ds ++ [c1, 'b']).length - 1) ' ' = 'b' := by
    rw [hlen]
    rw [List.getD_append_right _ _ _ _ (by omega)]
    have : ds.length + 2 - 1 - ds.length = 1 := by omega
    rw [this]
    rfl
  have hpen : (ds ++ [c1, 'b']).getD ((ds ++ [c1, 'b']).length - 2) ' ' = c1 := by
    rw [hlen]
    rw [List.getD_append_right _ _ _ _ (by omega)]
    have : ds.length + 2 - 2 - ds.length = 0 := by omega
    rw [this]
    rfl
  obtain ⟨hgt, hnle, hnd⟩ := sizeQualChar_facts c1 hc1
  unfold sizeChrPos
  rw [hlast, if_pos rfl, hpen, if_neg hnle, hlen]
  simp

theorem sizeChrPos_two_other (ds : List Char) (c1 c2 : Char) (hc2 : c2 ∈ sizeQualChars)
    (hb : ¬ c2 = 'b') :
    sizeChrPos (ds ++ [c1, c2]) = some (ds.length + 1) := by
  have hlen : (ds ++ [c1, c2]).length = ds.length + 2 := by simp
  have hlast : (ds ++ [c1, c2]).getD ((ds ++ [c1, c2]).length - 1) ' ' = c2 := by
    rw [hlen]
    rw [List.getD_append_right _ _ _ _ (by omega)]
    have : ds.length + 2 - 1 - ds.length = 1 := by omega
    rw [this]
    rfl
  obtain ⟨hgt, hnle, hnd⟩ := sizeQualChar_facts c2 hc2
  unfold sizeChrPos
  rw [hlast, if_neg hb, if_pos hgt, hlen]
  have : ds.length + 2 - 1 = ds.length + 1 := by omega
  rw [this]

theorem sizeChrPos_long (ds : List Char) (qs : List Char) (hlen3 : 3 ≤ qs.length)
    (hq : ∀ c ∈ qs, c ∈ sizeQualChars) :
    ∃ k, 1 ≤ k ∧ k ≤ qs.length ∧ sizeChrPos (ds ++ qs) = some (ds.length + k) := by
  have hlen : (ds ++ qs).length = ds.length + qs.length := by simp
  have hlast : (ds ++ qs).getD ((ds ++ qs).length - 1) ' ' = qs.getD (qs.length - 1) ' ' := by
    rw [hlen, List.getD_append_right _ _ _ _ (by omega)]
    have : ds.length + qs.length - 1 - ds.length = qs.length - 1 := by omega
    rw [this]
  have hpen : (ds ++ qs).getD ((ds ++ qs).length - 2) ' ' = qs.getD (qs.length - 2) ' ' := by
    rw [hlen, List.getD_append_right _ _ _ _ (by omega)]
    have : ds.length + qs.length - 2 - ds.length = qs.length - 2 := by omega
    rw [this]
  have hlastmem : qs.getD (qs.length - 1) ' ' ∈ qs := by
    rw [List.getD_eq_getElem _ _ (by omega)]
    exact List.getElem_mem _
  have hpenmem : qs.getD (qs.length - 2) ' ' ∈ qs := by
    rw [List.getD_eq_getElem _ _ (by omega)]
    exact List.getElem_mem _
  obtain ⟨hgt1, hnle1, _⟩ := sizeQualChar_facts _ (hq _ hlastmem)
  obtain ⟨hgt2, hnle2, _⟩ := sizeQualChar_facts _ (hq _ hpenmem)
  unfold sizeChrPos
  rw [hlast, hpen]
  by_cases hb : qs.getD (qs.length - 1) ' ' = 'b'
  · rw [if_pos hb, if_neg hnle2, hlen]
    exact ⟨qs.length - 2, by omega, by omega, by rw [show ds.length + qs.length - 2 = ds.length + (qs.length - 2) by omega]⟩
  · rw [if_neg hb, if_pos hgt1, hlen]
    exact ⟨qs.length - 1, by omega, by omega, by rw [show ds.length + qs.length - 1 = ds.length + (qs.length - 1) by omega]⟩


theorem mem_take_head (ds : List Char) (c1 : Char) (rest : List Char) (k : Nat) (hk : 1 ≤ k) :
    c1 ∈ (ds ++ c1 :: rest).take (ds.length + k) := by
  rw [List.take_append_eq_append_take]
  have h1 : ds.take (ds.length + k) = ds := List.take_of_length_le (by omega)
  have h2 : ds.length + k - ds.length = k := by omega
  rw [h1, h2]
  apply List.mem_append_right
  cases k with
  | zero => omega
  | succ k =>
    rw [List.take_succ_cons]
    exact List.mem_cons_self _ _

theorem convertToByteLower_eq (l : List Char) :
    convertToByteLower l = convertToByteSpecLower l := by
  obtain ⟨qs, hl⟩ : ∃ qs, l.takeWhile Char.isDigit ++ qs = l := List.takeWhile_prefix _
  set ds := l.takeWhile Char.isDigit with hds
  have hqs : l.drop ds.length = qs := by
    conv_lhs => rw [← hl]
    exact List.drop_left _ _
  have hdsd : ∀ c ∈ ds, c.isDigit = true := fun c hc => List.mem_takeWhile_imp hc
  have hregex : sizeRegexMatch l = (!ds.isEmpty && qs.all (fun c => c ∈ sizeQualChars)) := by
    unfold sizeRegexMatch tokenStar
    simp only [hqs]
    rw [tokenStarFuel_sizeQual _ _ (le_refl _)]
  unfold convertToByteLower convertToByteSpecLower
  simp only [← hds, hqs]
  by_cases hdse : ds.isEmpty
  · simp [hregex, hdse]
  · have hdne : ds ≠ [] := by simpa [List.isEmpty_iff] using hdse
    by_cases hq : qs.all (fun c => c ∈ sizeQualChars) = true
    · have hre : sizeRegexMatch l = true := by simp [hregex, hdse, hq]
      have hqall : ∀ c ∈ qs, c ∈ sizeQualChars := by simpa [List.all_eq_true] using hq
      rw [hre]
      simp only [if_true]
      rw [← hl]
      rcases qs with _ | ⟨c1, _ | ⟨c2, _ | ⟨c3, t⟩⟩⟩
      · rw [List.append_nil, sizeChrPos_digits ds hdne hdsd]
        cases hcv : cvtZToUInt64 ds <;> simp [hdse, hcv, sizeSpecMultiplier]
      · have hc1 : c1 ∈ sizeQualChars := hqall c1 (List.mem_cons_self _ _)
        have hg : (ds ++ [c1]).getD ds.length ' ' = c1 := by
          rw [List.getD_append_right _ _ _ _ (le_refl _)]
          simp
        simp only [sizeChrPos_one ds c1 hdne hdsd hc1, hg, List.take_left]
        cases hm : sizeQualifierToMultiplier c1 <;> cases hcv : cvtZToUInt64 ds <;>
          simp [hdse, hm, hcv, sizeSpecMultiplier, hc1]
      · have hc1 : c1 ∈ sizeQualChars := hqall c1 (List.mem_cons_self _ _)
        have hc2 : c2 ∈ sizeQualChars := hqall c2 (by simp)
        by_cases hb2 : c2 = 'b'
        · subst hb2
          have hg : (ds ++ [c1, 'b']).getD ds.length ' ' = c1 := by
            rw [List.getD_append_right _ _ _ _ (le_refl _)]
            simp
          simp only [sizeChrPos_two_b ds c1 hdne hc1, hg, List.take_left]
          cases hm : sizeQualifierToMultiplier c1 <;> cases hcv : cvtZToUInt64 ds <;>
            simp [hdse, hm, hcv, sizeSpecMultiplier, hc1]
        · have hg : (ds ++ [c1, c2]).getD (ds.length + 1) ' ' = c2 := by
            rw [List.getD_append_right _ _ _ _ (by omega)]
            have : ds.length + 1 - ds.length = 1 := by omega
            rw [this]
            rfl
          have htake : (ds ++ [c1, c2]).take (ds.length + 1) = ds ++ [c1] := by
            rw [List.take_append_eq_append_take]
            have h1 : ds.take (ds.length + 1) = ds := List.take_of_length_le (by omega)
            have h2 : ds.length + 1 - ds.length = 1 := by omega
            rw [h1, h2]
            rfl
          have hcvt : cvtZToUInt64 (ds ++ [c1]) = none :=
            cvtZToUInt64_none_of_nondigit _ c1 (by simp) (sizeQualChar_facts c1 hc1).2.2
          have hguard : ¬(c1 ∈ sizeQualChars ∧ c2 = 'b') := fun h => hb2 h.2
          simp only [sizeChrPos_two_other ds c1 c2 hc2 hb2, hg, htake, hcvt]
          cases hm : sizeQualifierToMultiplier c2 <;>
            simp [hdse, hm, sizeSpecMultiplier, hguard]
      · have hc1 : c1 ∈ sizeQualChars := hqall c1 (List.mem_cons_self _ _)
        obtain ⟨k, hk1, hk2, hcp⟩ :=
          sizeChrPos_long ds (c1 :: c2 :: c3 :: t) (by simp) hqall
        have hcvt : cvtZToUInt64 ((ds ++ c1 :: c2 :: c3 :: t).take (ds.length + k)) = none :=
          cvtZToUInt64_none_of_nondigit _ c1 (mem_take_head ds c1 _ k hk1)
            (sizeQualChar_facts c1 hc1).2.2
        simp only [hcp, hcvt]
        cases hm : sizeQualifierToMultiplier ((ds ++ c1 :: c2 :: c3 :: t).getD (ds.length + k) ' ') <;>
          simp [hdse, hm, sizeSpecMultiplier]
    · have hre : sizeRegexMatch l = false := by simp [hregex, hq]
      have hq' : qs.all (fun c => c ∈ sizeQualChars) = false := by
        simpa using hq
      have hmul : sizeSpecMultiplier qs = none := by
        rcases qs with _ | ⟨c1, _ | ⟨c2, _ | ⟨c3, t⟩⟩⟩
        · simp at hq'
        · simp only [List.all_cons, List.all_nil, Bool.and_true] at hq'
          have hn : ¬(c1 ∈ sizeQualChars) := by simpa using hq'
          simp [sizeSpecMultiplier, hn]
        · by_cases hg : c1 ∈ sizeQualChars ∧ c2 = 'b'
          · exfalso
            obtain ⟨hg1, hg2⟩ := hg
            subst hg2
            simp [sizeQualChars] at hg1
            simp [List.all_cons, sizeQualChars] at hq'
            tauto
          · simp [sizeSpecMultiplier, hg]
        · rfl
      rw [hre]
      simp [hdse, hmul]

theorem convertToByte_eq_spec (s : String) : convertToByte s = convertToByteSpec s :=
  convertToByteLower_eq _

/-- C3 (amended): a size value is accepted exactly when its lowercased form
splits into a non-empty digit run below 2^64 followed by a qualifier that is
empty, a single qualifier letter, or a two-letter qualifier ending in b
(which includes the source-accepted "bb" with multiplier 1); the result is
the digit value times the qualifier multiplier (b=1, k=1024, m=1024^2,
g=1024^3, t=1024^4, p=1024^5), modulo 2^64; in particular
convertToByte "1kb" = 1024, convertToByte "2m" = 2097152,
convertToByte "5" = 5. -/
theorem c3_convert_to_byte_spec :
    (∀ s : String, convertToByte s = convertToByteSpec s) ∧
    convertToByte "1kb" = some 1024 ∧ convertToByte "2m" = some 2097152 ∧
    convertToByte "5" = some 5 :=
  ⟨fun _ => convertToByteLower_eq _, rfl, rfl, rfl⟩

theorem argvOption_ok_cases (rules : ParseRules) (occ : ArgvOccurrence) (s s' : Store)
    (h : configParseArgvOption rules occ s = .ok s') :
    (¬ (storeGet s (occ.opt.id, occ.opt.keyIdx)).found = true ∧
      s' = storeSet s (occ.opt.id, occ.opt.keyIdx)
        { found := true, negate := occ.opt.negate, reset := occ.opt.reset, source := .param,
          valueList := if occ.hasArg then [occ.arg] else [] }) ∨
    ((storeGet s (occ.opt.id, occ.opt.keyIdx)).found = true ∧
      s' = storeSet s (occ.opt.id, occ.opt.keyIdx)
        { storeGet s (occ.opt.id, occ.opt.keyIdx) with
          valueList := (storeGet s (occ.opt.id, occ.opt.keyIdx)).valueList ++ [occ.arg] }) := by
  simp only [configParseArgvOption] at h
  by_cases h1 : (rules.option occ.opt.id).secure = true
  · rw [if_pos h1] at h
    exact absurd h (by simp)
  · rw [if_neg h1] at h
    by_cases h2 : (storeGet s (occ.opt.id, occ.opt.keyIdx)).found = true
    · rw [if_neg (by simp [h2])] at h
      right
      refine ⟨h2, ?_⟩
      by_cases h3 : ((storeGet s (occ.opt.id, occ.opt.keyIdx)).negate && occ.opt.negate) = true
      · rw [if_pos h3] at h
        exact absurd h (by simp)
      · rw [if_neg h3] at h
        by_cases h4 : ((storeGet s (occ.opt.id, occ.opt.keyIdx)).reset && occ.opt.reset) = true
        · rw [if_pos h4] at h
          exact absurd h (by simp)
        · rw [if_neg h4] at h
          by_cases h5 : ((storeGet s (occ.opt.id, occ.opt.keyIdx)).reset && occ.opt.negate ||
              (storeGet s (occ.opt.id, occ.opt.keyIdx)).negate && occ.opt.reset) = true
          · rw [if_pos h5] at h
            exact absurd h (by simp)
          · rw [if_neg h5] at h
            by_cases h6 : (storeGet s (occ.opt.id, occ.opt.keyIdx)).negate ≠ occ.opt.negate
            · rw [if_pos h6] at h
              exact absurd h (by simp)
            · rw [if_neg h6] at h
              by_cases h7 : (storeGet s (occ.opt.id, occ.opt.keyIdx)).reset ≠ occ.opt.reset
              · rw [if_pos h7] at h
                exact absurd h (by simp)
              · rw [if_neg h7] at h
                by_cases h8 : (occ.hasArg && (rules.option occ.opt.id).multi) = true
                · rw [if_pos h8] at h
                  injection h with h
                  exact h.symm
                · rw [if_neg h8] at h
                  exact absurd h (by simp)
    · rw [if_pos (by simp [h2])] at h
      left
      refine ⟨h2, ?_⟩
      injection h with h
      exact h.symm


theorem argvOption_inv (rules : ParseRules) (occ : ArgvOccurrence) (s s' : Store)
    (hinv : ParamInv s) (h : configParseArgvOption rules occ s = .ok s') : ParamInv s' := by
  rcases argvOption_ok_cases rules occ s s' h with ⟨hf, rfl⟩ | ⟨hf, rfl⟩ <;> intro k hk
  · by_cases hkk : k = (occ.opt.id, occ.opt.keyIdx)
    · subst hkk
      rw [storeGet_storeSet_same]
    · rw [storeGet_storeSet_other _ _ _ _ hkk] at hk ⊢
      exact hinv k hk
  · by_cases hkk : k = (occ.opt.id, occ.opt.keyIdx)
    · subst hkk
      rw [storeGet_storeSet_same]
      exact hinv _ hf
    · rw [storeGet_storeSet_other _ _ _ _ hkk] at hk ⊢
      exact hinv k hk

theorem argvOption_found_kept (rules : ParseRules) (occ : ArgvOccurrence) (s s' : Store)
    (k : Nat × Nat) (hf : (storeGet s k).found = true)
    (h : configParseArgvOption rules occ s = .ok s') : (storeGet s' k).found = true := by
  rcases argvOption_ok_cases rules occ s s' h with ⟨hnf, rfl⟩ | ⟨hfnd, rfl⟩ <;>
    by_cases hkk : k = (occ.opt.id, occ.opt.keyIdx)
  · subst hkk
    rw [storeGet_storeSet_same]
  · rw [storeGet_storeSet_other _ _ _ _ hkk]
    exact hf
  · subst hkk
    rw [storeGet_storeSet_same]
    exact hfnd
  · rw [storeGet_storeSet_other _ _ _ _ hkk]
    exact hf

theorem argvOption_target_found (rules : ParseRules) (occ : ArgvOccurrence) (s s' : Store)
    (h : configParseArgvOption rules occ s = .ok s') :
    (storeGet s' (occ.opt.id, occ.opt.keyIdx)).found = true := by
  rcases argvOption_ok_cases rules occ s s' h with ⟨hnf, rfl⟩ | ⟨hfnd, rfl⟩ <;>
    rw [storeGet_storeSet_same]
  exact hfnd

theorem configParseArgv_inv (rules : ParseRules) (occs : List ArgvOccurrence) :
    ∀ s s', ParamInv s → configParseArgv rules occs s = .ok s' → ParamInv s' := by
  induction occs with
  | nil =>
    intro s s' hinv h
    injection h with h
    exact h ▸ hinv
  | cons occ occs ih =>
    intro s s' hinv h
    simp only [configParseArgv, List.foldlM_cons] at h
    cases hstep : configParseArgvOption rules occ s with
    | error e =>
      rw [hstep] at h
      exact absurd h (by simp [Bind.bind, Except.bind])
    | ok t =>
      rw [hstep] at h
      exact ih t s' (argvOption_inv rules occ s t hinv hstep) h

theorem configParseArgv_found_kept (rules : ParseRules) (occs : List ArgvOccurrence) :
    ∀ s s' k, (storeGet s k).found = true → configParseArgv rules occs s = .ok s' →
      (storeGet s' k).found = true := by
  induction occs with
  | nil =>
    intro s s' k hf h
    injection h with h
    exact h ▸ hf
  | cons occ occs ih =>
    intro s s' k hf h
    simp only [configParseArgv, List.foldlM_cons] at h
    cases hstep : configParseArgvOption rules occ s with
    | error e =>
      rw [hstep] at h
      exact absurd h (by simp [Bind.bind, Except.bind])
    | ok t =>
      rw [hstep] at h
      exact ih t s' k (argvOption_found_kept rules occ s t k hf hstep) h

theorem configParseArgv_target_found (rules : ParseRules) (occs : List ArgvOccurrence) :
    ∀ s s' optionId keyIdx,
      (∃ occ ∈ occs, occ.opt.id = optionId ∧ occ.opt.keyIdx = keyIdx) →
      configParseArgv rules occs s = .ok s' →
      (storeGet s' (optionId, keyIdx)).found = true := by
  induction occs with
  | nil =>
    intro s s' optionId keyIdx hocc h
    obtain ⟨occ, hmem, _⟩ := hocc
    exact absurd hmem (List.not_mem_nil _)
  | cons occ occs ih =>
    intro s s' optionId keyIdx hocc h
    simp only [configParseArgv, List.foldlM_cons] at h
    cases hstep : configParseArgvOption rules occ s with
    | error e =>
      rw [hstep] at h
      exact absurd h (by simp [Bind.bind, Except.bind])
    | ok t =>
      rw [hstep] at h
      obtain ⟨o, hmem, ho1, ho2⟩ := hocc
      rcases List.mem_cons.mp hmem with rfl | hmem
      · subst ho1
        subst ho2
        exact configParseArgv_found_kept rules occs t s' _
          (argvOption_target_found rules o s t hstep) h
      · exact ih t s' optionId keyIdx ⟨o, hmem, ho1, ho2⟩ h


theorem envEntry_ok_cases (rules : ParseRules) (commandId commandRoleId : Nat) (e : String)
    (s s' : Store) (h : envEntryProcess rules commandId commandRoleId e s = .ok s') :
    s' = s ∨ ∃ key value v, envEntrySplit e = some (key, value) ∧
      (storeGet s ((cfgParseOption rules key).id, (cfgParseOption rules key).keyIdx)).found = false ∧
      s' = storeSet s ((cfgParseOption rules key).id, (cfgParseOption rules key).keyIdx) v := by
  simp only [envEntryProcess] at h
  cases hsplit : envEntrySplit e with
  | none =>
    simp only [hsplit] at h
    injection h with h
    exact Or.inl h.symm
  | some kv =>
    obtain ⟨key, value⟩ := kv
    simp only [hsplit] at h
    by_cases h1 : (cfgParseOption rules key).found = true
    case neg =>
      rw [if_pos (by simp [h1])] at h
      injection h with h
      exact Or.inl h.symm
    case pos =>
    rw [if_neg (by simp [h1])] at h
    by_cases h2 : (cfgParseOption rules key).negate = true
    case pos =>
      rw [if_pos h2] at h
      injection h with h
      exact Or.inl h.symm
    case neg =>
    rw [if_neg h2] at h
    by_cases h3 : (cfgParseOption rules key).reset = true
    case pos =>
      rw [if_pos h3] at h
      injection h with h
      exact Or.inl h.symm
    case neg =>
    rw [if_neg h3] at h
    by_cases h4 : cfgParseOptionValid rules commandId commandRoleId (cfgParseOption rules key).id = true
    case neg =>
      rw [if_pos (by simp [h4])] at h
      injection h with h
      exact Or.inl h.symm
    case pos =>
    rw [if_neg (by simp [h4])] at h
    by_cases h5 : value = ""
    case pos =>
      rw [if_pos h5] at h
      exact absurd h (by simp)
    case neg =>
    rw [if_neg h5] at h
    by_cases h6 : (storeGet s ((cfgParseOption rules key).id, (cfgParseOption rules key).keyIdx)).found = true
    case pos =>
      rw [if_pos h6] at h
      injection h with h
      exact Or.inl h.symm
    case neg =>
    rw [if_neg h6] at h
    have hnf : (storeGet s ((cfgParseOption rules key).id, (cfgParseOption rules key).keyIdx)).found = false := by
      simpa using h6
    by_cases h7 : (rules.option (cfgParseOption rules key).id).type = ConfigOptionType.boolean
    case pos =>
      rw [if_pos h7] at h
      by_cases h8 : value = "n"
      case pos =>
        rw [if_pos h8] at h
        injection h with h
        exact Or.inr ⟨key, value, _, rfl, hnf, h.symm⟩
      case neg =>
      rw [if_neg h8] at h
      by_cases h9 : value = "y"
      case pos =>
        rw [if_pos h9] at h
        injection h with h
        exact Or.inr ⟨key, value, _, rfl, hnf, h.symm⟩
      case neg =>
        rw [if_neg h9] at h
        exact absurd h (by simp)
    case neg =>
    rw [if_neg h7] at h
    by_cases h10 : (rules.option (cfgParseOption rules key).id).multi = true
    case pos =>
      rw [if_pos h10] at h
      injection h with h
      exact Or.inr ⟨key, value, _, rfl, hnf, h.symm⟩
    case neg =>
      rw [if_neg (by simp [h10])] at h
      injection h with h
      exact Or.inr ⟨key, value, _, rfl, hnf, h.symm⟩

theorem envEntry_preserves_found (rules : ParseRules) (commandId commandRoleId : Nat)
    (e : String) (s s' : Store) (k : Nat × Nat) (hf : (storeGet s k).found = true)
    (h : envEntryProcess rules commandId commandRoleId e s = .ok s') :
    storeGet s' k = storeGet s k := by
  rcases envEntry_ok_cases rules commandId commandRoleId e s s' h with rfl | ⟨key, value, v, _, hnf, rfl⟩
  · rfl
  · have hkk : k ≠ ((cfgParseOption rules key).id, (cfgParseOption rules key).keyIdx) := by
      intro hkk
      rw [← hkk] at hnf
      rw [hf] at hnf
      exact Bool.true_eq_false.mp hnf
    exact storeGet_storeSet_other _ _ _ _ hkk

theorem configParseEnv_preserves_found (rules : ParseRules) (commandId commandRoleId : Nat)
    (envs : List String) :
    ∀ s s' k, (storeGet s k).found = true →
      configParseEnv rules commandId commandRoleId envs s = .ok s' →
      storeGet s' k = storeGet s k := by
  induction envs with
  | nil =>
    intro s s' k hf h
    injection h with h
    rw [← h]
  | cons e envs ih =>
    intro s s' k hf h
    simp only [configParseEnv, List.foldlM_cons] at h
    cases hstep : envEntryProcess rules commandId commandRoleId e s with
    | error err =>
      rw [hstep] at h
      exact absurd h (by simp [Bind.bind, Except.bind])
    | ok t =>
      rw [hstep] at h
      have he := envEntry_preserves_found rules commandId commandRoleId e s t k hf hstep
      have hft : (storeGet t k).found = true := by rw [he]; exact hf
      rw [ih t s' k hft h, he]


theorem configKey_ok_cases (rules : ParseRules) (commandId commandRoleId sectionIdx : Nat)
    (sectionName : String) (kv : String × IniValue) (optionFound : List (Nat × String))
    (s : Store) (optionFound' : List (Nat × String)) (s' : Store)
    (h : configKeyApply rules commandId commandRoleId sectionIdx sectionName kv optionFound s =
      .ok (optionFound', s')) :
    s' = s ∨ ∃ v,
      (storeGet s ((cfgParseOption rules kv.1).id, (cfgParseOption rules kv.1).keyIdx)).found = false ∧
      s' = storeSet s ((cfgParseOption rules kv.1).id, (cfgParseOption rules kv.1).keyIdx) v := by
  simp only [configKeyApply] at h
  by_cases h1 : (cfgParseOption rules kv.1).found = true
  case neg =>
    rw [if_pos (by simp [h1])] at h
    injection h with h
    exact Or.inl (congrArg Prod.snd h).symm
  case pos =>
  rw [if_neg (by simp [h1])] at h
  by_cases h2 : (cfgParseOption rules kv.1).negate = true
  case pos =>
    rw [if_pos h2] at h
    injection h with h
    exact Or.inl (congrArg Prod.snd h).symm
  case neg =>
  rw [if_neg h2] at h
  by_cases h3 : (cfgParseOption rules kv.1).reset = true
  case pos =>
    rw [if_pos h3] at h
    injection h with h
    exact Or.inl (congrArg Prod.snd h).symm
  case neg =>
  rw [if_neg h3] at h
  by_cases h4 : (rules.option (cfgParseOption rules kv.1).id).sec = ConfigSection.commandLine
  case pos =>
    rw [if_pos h4] at h
    injection h with h
    exact Or.inl (congrArg Prod.snd h).symm
  case neg =>
  rw [if_neg h4] at h
  cases hdup : optionFound.find? (fun e =>
      e.1 = (cfgParseOption rules kv.1).id * CFG_OPTION_KEY_MAX + (cfgParseOption rules kv.1).keyIdx) with
  | some p =>
    rw [hdup] at h
    exact absurd h (by simp)
  | none =>
  simp only [hdup] at h
  by_cases h5 : cfgParseOptionValid rules commandId commandRoleId (cfgParseOption rules kv.1).id = true
  case neg =>
    rw [if_pos (by simp [h5])] at h
    injection h with h
    exact Or.inl (congrArg Prod.snd h).symm
  case pos =>
  rw [if_neg (by simp [h5])] at h
  by_cases h6 : ((rules.option (cfgParseOption rules kv.1).id).sec = ConfigSection.stanza &&
      ("global".data).isPrefixOf sectionName.data) = true
  case pos =>
    rw [if_pos h6] at h
    injection h with h
    exact Or.inl (congrArg Prod.snd h).symm
  case neg =>
  rw [if_neg h6] at h
  by_cases h7 : (storeGet s ((cfgParseOption rules kv.1).id, (cfgParseOption rules kv.1).keyIdx)).found = true
  case pos =>
    rw [if_pos h7] at h
    injection h with h
    exact Or.inl (congrArg Prod.snd h).symm
  case neg =>
  rw [if_neg h7] at h
  have hnf : (storeGet s ((cfgParseOption rules kv.1).id, (cfgParseOption rules kv.1).keyIdx)).found = false := by
    simpa using h7
  cases hkv2 : kv.2 with
  | vlist ls =>
    simp only [hkv2] at h
    by_cases h8 : (rules.option (cfgParseOption rules kv.1).id).multi = true
    case neg =>
      rw [if_pos (by simp [h8])] at h
      exact absurd h (by simp)
    case pos =>
      rw [if_neg (by simp [h8])] at h
      injection h with h
      exact Or.inr ⟨_, hnf, (congrArg Prod.snd h).symm⟩
  | single value =>
    simp only [hkv2] at h
    by_cases h9 : value = ""
    case pos =>
      rw [if_pos h9] at h
      exact absurd h (by simp)
    case neg =>
    rw [if_neg h9] at h
    by_cases h10 : (rules.option (cfgParseOption rules kv.1).id).type = ConfigOptionType.boolean
    case pos =>
      rw [if_pos h10] at h
      by_cases h11 : value = "n"
      case pos =>
        rw [if_pos h11] at h
        injection h with h
        exact Or.inr ⟨_, hnf, (congrArg Prod.snd h).symm⟩
      case neg =>
      rw [if_neg h11] at h
      by_cases h12 : value = "y"
      case pos =>
        rw [if_pos h12] at h
        injection h with h
        exact Or.inr ⟨_, hnf, (congrArg Prod.snd h).symm⟩
      case neg =>
        rw [if_neg h12] at h
        exact absurd h (by simp)
    case neg =>
      rw [if_neg h10] at h
      injection h with h
      exact Or.inr ⟨_, hnf, (congrArg Prod.snd h).symm⟩

theorem configKey_preserves_found (rules : ParseRules) (commandId commandRoleId sectionIdx : Nat)
    (sectionName : String) (kv : String × IniValue) (optionFound : List (Nat × String))
    (s : Store) (optionFound' : List (Nat × String)) (s' : Store) (k : Nat × Nat)
    (hf : (storeGet s k).found = true)
    (h : configKeyApply rules commandId commandRoleId sectionIdx sectionName kv optionFound s =
      .ok (optionFound', s')) :
    storeGet s' k = storeGet s k := by
  rcases configKey_ok_cases rules commandId commandRoleId sectionIdx sectionName kv optionFound
      s optionFound' s' h with rfl | ⟨v, hnf, rfl⟩
  · rfl
  · have hkk : k ≠ ((cfgParseOption rules kv.1).id, (cfgParseOption rules kv.1).keyIdx) := by
      intro hkk
      rw [← hkk] at hnf
      rw [hf] at hnf
      exact Bool.true_eq_false.mp hnf
    exact storeGet_storeSet_other _ _ _ _ hkk


theorem configSectionKeys_preserves_found (rules : ParseRules)
    (commandId commandRoleId sectionIdx : Nat) (sectionName : String)
    (keys : List (String × IniValue)) :
    ∀ acc accres k, (storeGet (Prod.snd acc) k).found = true →
      keys.foldlM (fun acc kv =>
        configKeyApply rules commandId commandRoleId sectionIdx sectionName kv acc.1 acc.2)
        acc = .ok accres →
      storeGet accres.2 k = storeGet acc.2 k := by
  induction keys with
  | nil =>
    intro acc accres k hf h
    injection h with h
    rw [← h]
  | cons kv keys ih =>
    intro acc accres k hf h
    simp only [List.foldlM_cons] at h
    cases hstep : configKeyApply rules commandId commandRoleId sectionIdx sectionName kv
        acc.1 acc.2 with
    | error err =>
      rw [hstep] at h
      exact absurd h (by simp [Bind.bind, Except.bind])
    | ok t =>
      rw [hstep] at h
      have he := configKey_preserves_found rules commandId commandRoleId sectionIdx sectionName
        kv acc.1 acc.2 t.1 t.2 k hf hstep
      have hft : (storeGet t.2 k).found = true := by rw [he]; exact hf
      rw [ih t accres k hft h, he]

theorem configSection_preserves_found (rules : ParseRules)
    (commandId commandRoleId sectionIdx : Nat) (sectionName : String)
    (keys : List (String × IniValue)) (s s' : Store) (k : Nat × Nat)
    (hf : (storeGet s k).found = true)
    (h : configSectionApply rules commandId commandRoleId sectionIdx sectionName keys s = .ok s') :
    storeGet s' k = storeGet s k := by
  unfold configSectionApply at h
  cases hstep : keys.foldlM (fun acc kv =>
      configKeyApply rules commandId commandRoleId sectionIdx sectionName kv acc.1 acc.2)
      (([] : List (Nat × String)), s) with
  | error err =>
    rw [hstep] at h
    exact absurd h (by simp [Except.map])
  | ok accres =>
    rw [hstep] at h
    simp only [Except.map] at h
    injection h with h
    rw [← h]
    exact configSectionKeys_preserves_found rules commandId commandRoleId sectionIdx sectionName
      keys ([], s) accres k hf hstep

theorem configSections_preserves_found (rules : ParseRules) (commandId commandRoleId : Nat)
    (sections : List (Nat × String)) (ini : Ini) :
    ∀ s s' k, (storeGet s k).found = true →
      configSectionsApply rules commandId commandRoleId sections ini s = .ok s' →
      storeGet s' k = storeGet s k := by
  induction sections with
  | nil =>
    intro s s' k hf h
    injection h with h
    rw [← h]
  | cons sec sections ih =>
    intro s s' k hf h
    simp only [configSectionsApply, List.foldlM_cons] at h
    cases hstep : configSectionApply rules commandId commandRoleId sec.1 sec.2 (ini sec.2) s with
    | error err =>
      rw [hstep] at h
      exact absurd h (by simp [Bind.bind, Except.bind])
    | ok t =>
      rw [hstep] at h
      have he := configSection_preserves_found rules commandId commandRoleId sec.1 sec.2
        (ini sec.2) s t k hf hstep
      have hft : (storeGet t k).found = true := by rw [he]; exact hf
      rw [ih t s' k hft h, he]


/-- C1: precedence. -/
theorem c1_precedence_param_wins (rules : ParseRules) (commandId commandRoleId : Nat)
    (occs : List ArgvOccurrence) (envs : List String) (stanza : Option String) (ini : Ini)
    (optionId keyIdx : Nat) (s1 s2 s3 : Store)
    (hargv : ∃ occ ∈ occs, occ.opt.id = optionId ∧ occ.opt.keyIdx = keyIdx)
    (henv : ∃ e ∈ envs, ∃ key value, envEntrySplit e = some (key, value) ∧
      (cfgParseOption rules key).id = optionId ∧ (cfgParseOption rules key).keyIdx = keyIdx)
    (hconfig : ∃ secName ∈ sectionListBuild stanza (rules.commandName commandId),
      ∃ kv ∈ ini secName, (cfgParseOption rules kv.1).id = optionId ∧
        (cfgParseOption rules kv.1).keyIdx = keyIdx)
    (h1 : configParseArgv rules occs emptyStore = .ok s1)
    (h2 : configParseEnv rules commandId commandRoleId envs s1 = .ok s2)
    (h3 : configFilePhase rules commandId commandRoleId stanza ini s2 = .ok s3) :
    (storeGet s3 (optionId, keyIdx)).found = true ∧
    (storeGet s3 (optionId, keyIdx)).source = ConfigSource.param ∧
    storeGet s3 (optionId, keyIdx) = storeGet s1 (optionId, keyIdx) := by
  have hinv0 : ParamInv emptyStore := by
    intro k hk
    simp [storeGet, emptyStore] at hk
  have hfound1 := configParseArgv_target_found rules occs emptyStore s1 optionId keyIdx hargv h1
  have hinv1 := configParseArgv_inv rules occs emptyStore s1 hinv0 h1
  have e2 := configParseEnv_preserves_found rules commandId commandRoleId envs s1 s2
    (optionId, keyIdx) hfound1 h2
  have hfound2 : (storeGet s2 (optionId, keyIdx)).found = true := by rw [e2]; exact hfound1
  have e3 := configSections_preserves_found rules commandId commandRoleId
    ((sectionListBuild stanza (rules.commandName commandId)).enum) ini s2 s3
    (optionId, keyIdx) hfound2 h3
  refine ⟨?_, ?_, ?_⟩
  · rw [e3]
    exact hfound2
  · rw [e3, e2]
    exact hinv1 _ hfound1
  · rw [e3, e2]

/-- C1 witness. -/
theorem c1_precedence_param_wins_witness :
    (storeGet storeC1 (0, 0)).found = true ∧
    (storeGet storeC1 (0, 0)).source = ConfigSource.param ∧
    storeGet storeC1 (0, 0) = storeGet storeC1 (0, 0) := by
  refine c1_precedence_param_wins rulesPlain 0 0 [occC1] ["PGBACKREST_X=b"] none iniC1 0 0
    storeC1 storeC1 storeC1 ?_ ?_ ?_ ?_ ?_ ?_
  · exact ⟨occC1, List.mem_cons_self _ _, rfl, rfl⟩
  · exact ⟨"PGBACKREST_X=b", List.mem_cons_self _ _, "x", "b", rfl, rfl, rfl⟩
  · exact ⟨"global", by decide, ("x", IniValue.single "c"), by decide, rfl, rfl⟩
  · rfl
  · rfl
  · rfl

/-- C6: section order, first wins. -/
theorem c6_section_order_first_wins (rules : ParseRules) :
    (∀ st cname : String, sectionListBuild (some st) cname =
        [st ++ ":" ++ cname, st, "global:" ++ cname, "global"]) ∧
    (∀ cname : String, sectionListBuild none cname = ["global:" ++ cname, "global"]) ∧
    (∀ commandId commandRoleId stanza ini store,
      configFilePhase rules commandId commandRoleId stanza ini store =
        configSectionsApply rules commandId commandRoleId
          ((sectionListBuild stanza (rules.commandName commandId)).enum) ini store) ∧
    (∀ commandId commandRoleId sections ini m s' slot, (storeGet m slot).found = true →
      configSectionsApply rules commandId commandRoleId sections ini m = .ok s' →
      storeGet s' slot = storeGet m slot) :=
  ⟨fun _ _ => rfl, fun _ => rfl, fun _ _ _ _ _ => rfl,
    fun commandId commandRoleId sections ini m s' slot hf h =>
      configSections_preserves_found rules commandId commandRoleId sections ini m s' slot hf h⟩

/-- C6 witness. -/
theorem c6_section_order_first_wins_witness :
    sectionListBuild (some "demo") "backup" = ["demo:backup", "demo", "global:backup", "global"] ∧
    storeGet storeC1 (0, 0) = storeGet storeC1 (0, 0) := by
  constructor
  · have h := (c6_section_order_first_wins rulesPlain).1 "demo" "backup"
    rw [h]
    decide
  · exact (c6_section_order_first_wins rulesPlain).2.2.2 0 0 [(0, "global")] iniC1 storeC1
      storeC1 (0, 0) rfl rfl

/-- C7: for a slot whose dependency check succeeded and whose value is unset
(and not negated), phase 5 materialises the per-(command, option) default --
parsed by the option type, with boolean defaults compared against "1" -- and,
when no default exists, a required option outside help mode raises
OptionRequired whose message carries the stanza hint exactly when the option
lives in the stanza section. -/
theorem c7_default_and_required (rules : ParseRules) (commandId : Nat) (help : Bool)
    (optionId keyIdx : Nat) (pov : ParseOptionValue) (dependValueAt : Nat → Option Value)
    (hdep : dependCheck rules commandId optionId keyIdx
      (pov.found && ((rules.option optionId).type = ConfigOptionType.boolean || !pov.negate) &&
        !pov.reset) pov.source dependValueAt = .ok true)
    (hunset : (pov.found && ((rules.option optionId).type = ConfigOptionType.boolean ||
      !pov.negate) && !pov.reset) = false)
    (hneg : pov.negate = false) :
    (∀ d, cfgParseOptionDefault rules commandId optionId = some d →
      validateOption rules commandId help optionId keyIdx pov dependValueAt =
        (defaultParse (rules.option optionId).type d).map
          (fun v => { value := some v, source := ConfigSource.default, negate := false,
                      reset := pov.reset })) ∧
    (cfgParseOptionDefault rules commandId optionId = none →
      cfgParseOptionRequired rules commandId optionId = true → help = false →
      validateOption rules commandId help optionId keyIdx pov dependValueAt =
        .error (.optionRequired commandId optionId keyIdx
          (if (rules.option optionId).sec = ConfigSection.stanza then stanzaHint else ""))) ∧
    (∀ d, defaultParse ConfigOptionType.boolean d = .ok (.boolean (d = "1"))) := by
  have hdep2 : dependCheck rules commandId optionId keyIdx false pov.source dependValueAt =
      .ok true := by
    rw [← hunset]
    exact hdep
  refine ⟨?_, ?_, fun d => rfl⟩
  · intro d hd
    simp only [validateOption, hdep, hunset, hd]
    cases hdp : defaultParse (rules.option optionId).type d <;>
      simp [hdp, Except.map, hneg, hdep2]
  · intro hd hreq hhelp
    simp only [validateOption, hdep, hunset, hd, hreq, hhelp]
    simp [hneg, hdep2]

/-- C7 witness: a required stanza-section option with no default and no set
value raises OptionRequired carrying the stanza hint. -/
theorem c7_default_and_required_witness :
    validateOption rulesRequiredStanza 0 false 0 0 {} (fun _ => none) =
      .error (.optionRequired 0 0 0 stanzaHint) := by
  have h := (c7_default_and_required rulesRequiredStanza 0 false 0 0 {} (fun _ => none)
    rfl rfl rfl).2.1 rfl rfl rfl
  rw [h]
  rfl

theorem dependCheck_of_resolved (rules : ParseRules) (commandId optionId keyIdx : Nat)
    (dependValueAt : Nat → Option Value)
    (hdep : dependResolvedPure rules commandId optionId dependValueAt = true) :
    ∀ (optionSet : Bool) (source : ConfigSource),
      dependCheck rules commandId optionId keyIdx optionSet source dependValueAt = .ok true := by
  intro optionSet source
  unfold dependResolvedPure at hdep
  unfold dependCheck
  by_cases hf : (parseRuleOptionDataFind rules .depend commandId optionId).found = true
  case neg =>
    rw [if_neg hf]
  case pos =>
  rw [if_pos hf] at hdep ⊢
  cases hv : dependValueAt (parseRuleOptionDataFind rules .depend commandId optionId).data with
  | none =>
    rw [hv] at hdep
    simp at hdep
  | some v =>
    rw [hv] at hdep
    simp only [Bool.or_eq_true, decide_eq_true_eq] at hdep
    rcases hdep with hdep | hdep
    · have hls0 : ¬ (parseRuleOptionDataFind rules .depend commandId optionId).listSize > 0 := by
        omega
      simp [hls0]
    · have hdep2 : dependValueStr rules
          (parseRuleOptionDataFind rules .depend commandId optionId).data v ∈
          (parseRuleOptionDataFind rules .depend commandId optionId).list := by
        simpa using hdep
      simp [hdep, hdep2]

theorem validateOption_source_erase (rules : ParseRules) (commandId : Nat) (help : Bool)
    (optionId keyIdx : Nat) (pov : ParseOptionValue) (dependValueAt : Nat → Option Value)
    (s1 s2 : ConfigSource)
    (hdep : dependResolvedPure rules commandId optionId dependValueAt = true) :
    Except.map eraseSource (validateOption rules commandId help optionId keyIdx
      { pov with source := s1 } dependValueAt) =
    Except.map eraseSource (validateOption rules commandId help optionId keyIdx
      { pov with source := s2 } dependValueAt) := by
  have hd := dependCheck_of_resolved rules commandId optionId keyIdx dependValueAt hdep
  simp only [validateOption, hd]
  by_cases hset : (pov.found && ((rules.option optionId).type = ConfigOptionType.boolean ||
      !pov.negate) && !pov.reset) = true
  · simp only [hset, if_true]
    by_cases hb : (rules.option optionId).type = ConfigOptionType.boolean
    · simp [hb, eraseSource, Except.map]
    · simp only [hb, if_false]
      cases hvs : validateOptionSet rules commandId optionId keyIdx pov.valueList <;>
        simp [eraseSource, Except.map]
  · simp only [hset]
    by_cases hng : pov.negate = true
    · simp [hng, eraseSource, Except.map]
    · simp [hng, eraseSource, Except.map]

/-- splitOnChar on a list without the separator yields the single whole
field. -/
theorem splitOnChar_no_sep (sep : Char) (l : List Char) (h : sep ∉ l) :
    splitOnChar sep l = [l] := by
  induction l with
  | nil => rfl
  | cons c rest ih =>
    have hc : ¬ c = sep := fun he => h (he ▸ List.mem_cons_self c rest)
    have hr : sep ∉ rest := fun hm => h (List.mem_cons_of_mem c hm)
    simp only [splitOnChar, ih hr, if_neg hc]

/-- A colon-free environment value splits into the single whole value. -/
theorem splitColon_no_colon (value : String) (h : (':' : Char) ∉ value.data) :
    splitColon value.data = [value] := by
  simp only [splitColon, splitOnChar_no_sep ':' value.data h, List.map]

/-- C8 counterexample: a secure option set on the command line is a hard
error while the same option set through the environment is stored, and a
multi-valued option whose value contains a colon is split by the environment
importer but kept whole by argv, so the env/argv round trip fails for secure
options and for colon-containing multi values. -/
theorem c8_round_trip_counterexample :
    (configParseArgvOption rulesSecure
        { opt := { found := true }, hasArg := true, arg := "secret" } emptyStore =
        .error (.secureOnCommandLine 0 0) ∧
      envEntryProcess rulesSecure 0 0 "PGBACKREST_REPO_CIPHER_PASS=secret" emptyStore =
        .ok [((0, 0), { found := true, source := .config, valueList := ["secret"] })]) ∧
    (envEntryProcess rulesMulti 0 0 "PGBACKREST_INCLUDE=a:b" emptyStore =
        .ok [((0, 0), { found := true, source := .config, valueList := ["a", "b"] })] ∧
      configParseArgvOption rulesMulti
        (argvEquivalentOccurrence ConfigOptionType.strng { found := true } "a:b") emptyStore =
        .ok [((0, 0), { found := true, source := .param, valueList := ["a:b"] })] ∧
      (["a", "b"] : List String) ≠ ["a:b"]) := by
  exact ⟨⟨rfl, rfl⟩, rfl, rfl, by decide⟩

/-- C8 (amended): for a non-secure option valid for the command and role, a
PGBACKREST_ environment entry and the equivalent argv occurrence store slots
that are identical except for the source tag (config vs param): booleans via
y/n against the plain/negated long option, non-multi options verbatim, and
multi options whenever the value contains no colon; phase 5 then materialises
any slot identically modulo the source tag whenever the dependency
resolves. -/
theorem c8_env_argv_round_trip (rules : ParseRules) (commandId commandRoleId : Nat)
    (keyValue name value : String) (optionId keyIdx : Nat)
    (hsplit : envEntrySplit keyValue = some (name, value))
    (hfind : cfgParseOption rules name = { found := true, id := optionId, keyIdx := keyIdx })
    (hvalid : cfgParseOptionValid rules commandId commandRoleId optionId = true)
    (hsecure : (rules.option optionId).secure = false)
    (hval : value ≠ "") :
    ((rules.option optionId).type = ConfigOptionType.boolean → (value = "y" ∨ value = "n") →
      envEntryProcess rules commandId commandRoleId keyValue emptyStore =
        .ok [((optionId, keyIdx),
          { found := true, negate := decide (value = "n"), source := .config })] ∧
      configParseArgvOption rules
        (argvEquivalentOccurrence (rules.option optionId).type
          { found := true, id := optionId, keyIdx := keyIdx } value) emptyStore =
        .ok [((optionId, keyIdx),
          { found := true, negate := decide (value = "n"), source := .param })]) ∧
    ((rules.option optionId).type ≠ ConfigOptionType.boolean →
      ((rules.option optionId).multi = false ∨ (':' : Char) ∉ value.data) →
      envEntryProcess rules commandId commandRoleId keyValue emptyStore =
        .ok [((optionId, keyIdx),
          { found := true, source := .config, valueList := [value] })] ∧
      configParseArgvOption rules
        (argvEquivalentOccurrence (rules.option optionId).type
          { found := true, id := optionId, keyIdx := keyIdx } value) emptyStore =
        .ok [((optionId, keyIdx),
          { found := true, source := .param, valueList := [value] })]) ∧
    (∀ (pov : ParseOptionValue) (help : Bool) (keyIdx2 : Nat)
        (dependValueAt : Nat → Option Value),
      dependResolvedPure rules commandId optionId dependValueAt = true →
      Except.map eraseSource (validateOption rules commandId help optionId keyIdx2
        { pov with source := .config } dependValueAt) =
      Except.map eraseSource (validateOption rules commandId help optionId keyIdx2
        { pov with source := .param } dependValueAt)) := by
  have hvalid2 := hvalid
  simp [cfgParseOptionValid] at hvalid2
  refine ⟨?_, ?_, ?_⟩
  · intro hb hyn
    constructor
    · simp only [envEntryProcess, hsplit, hfind]
      rcases hyn with hy | hn
      · subst hy
        simp [hvalid2, storeGet, emptyStore, hb, storeSet, cfgParseOptionValid]
      · subst hn
        simp [hvalid2, storeGet, emptyStore, hb, storeSet, cfgParseOptionValid]
    · rw [argvEquivalentOccurrence, if_pos hb]
      simp only [configParseArgvOption, hsecure]
      simp [storeGet, emptyStore, storeSet]
  · intro hb hm
    constructor
    · simp only [envEntryProcess, hsplit, hfind]
      rcases hm with hmf | hc
      · simp [hvalid2, hval, storeGet, emptyStore, hb, hmf, storeSet, cfgParseOptionValid]
      · by_cases hmu : (rules.option optionId).multi = true
        · have hsc := splitColon_no_colon value hc
          simp [hvalid2, hval, storeGet, emptyStore, hb, hmu, hsc, storeSet,
            cfgParseOptionValid]
        · simp [hvalid2, hval, storeGet, emptyStore, hb, hmu, storeSet, cfgParseOptionValid]
    · rw [argvEquivalentOccurrence, if_neg hb]
      simp only [configParseArgvOption, hsecure]
      simp [storeGet, emptyStore, storeSet]
  · intro pov help keyIdx2 dependValueAt hdep
    exact validateOption_source_erase rules commandId help optionId keyIdx2
      pov dependValueAt .config .param hdep

/-- C8 witness: a string option from PGBACKREST_X=v against --x=v, and a
boolean option from PGBACKREST_ONLINE=n against --no-online. -/
theorem c8_env_argv_round_trip_witness :
    (envEntryProcess rulesPlain 0 0 "PGBACKREST_X=v" emptyStore =
       .ok [((0, 0), { found := true, source := .config, valueList := ["v"] })] ∧
     configParseArgvOption rulesPlain
       (argvEquivalentOccurrence ConfigOptionType.strng { found := true } "v") emptyStore =
       .ok [((0, 0), { found := true, source := .param, valueList := ["v"] })]) ∧
    (envEntryProcess rulesBool 0 0 "PGBACKREST_ONLINE=n" emptyStore =
       .ok [((0, 0), { found := true, negate := true, source := .config })] ∧
     configParseArgvOption rulesBool
       (argvEquivalentOccurrence ConfigOptionType.boolean { found := true } "n") emptyStore =
       .ok [((0, 0), { found := true, negate := true, source := .param })]) := by
  refine ⟨?_, ?_⟩
  · exact (c8_env_argv_round_trip rulesPlain 0 0 "PGBACKREST_X=v" "x" "v" 0 0
      (by decide) (by decide) rfl rfl (by decide)).2.1 (by decide) (Or.inl rfl)
  · exact (c8_env_argv_round_trip rulesBool 0 0 "PGBACKREST_ONLINE=n" "online" "n" 0 0
      (by decide) (by decide) rfl rfl (by decide)).1 rfl (Or.inr rfl)

end PgBackRest
